import Mathlib

/-!
MecaCell: simulation kernel, verified fragments.

A shallow embedding of the parts of the MecaCell kernel found in
`mecacell/utilities/ordered_hash_map.hpp`, `mecacell/utilities/ordered_pair.hpp`,
`mecacell/vector3D.cpp` and `mecacell/basicworld.hpp`, followed by the theorems
proved about them.

Conventions of the embedding.
* `std::unordered_map<K, T>` is a finite partial function; where only lookups,
  insertions and erasures matter it is a function `K → Option T`, where it is
  iterated it is an association list.
* `std::vector<T>` is `List T`; `push_back` appends at the end.
* A `Cell *` is an address (`CellPtr`, a natural number, `0` being `nullptr`);
  the objects pointed to live in a heap `CellPtr → CellObj`.
* 32-bit machine integers are `Int`/`Nat` with explicit reduction modulo `2^32`
  (`wrapU32`, `wrapI32`); an overflow of `int` arithmetic wraps, as it does when compiled.
-/

set_option maxHeartbeats 400000

namespace MecaCell

/-! ## `ordered_hash_map.hpp` -/

/-- The struct `ordered_hash_map<K, V>`: an index table `um` from keys to positions
and the vector `vec` of key/value pairs that is iterated by `begin()`/`end()`. -/
structure ordered_hash_map (K V : Type) where
  um : K → Option Nat
  vec : List (K × V)

namespace ordered_hash_map

variable {K V : Type}

/-- A freshly constructed map: both tables empty. -/
def empty : ordered_hash_map K V :=
  { um := fun _ => none, vec := [] }

/-- `count(k)`: `um.count(k)`. -/
def count (m : ordered_hash_map K V) (k : K) : Bool :=
  (m.um k).isSome

/-- `size()`: `vec.size()`. -/
def size (m : ordered_hash_map K V) : Nat :=
  m.vec.length

/-- `clear()`. -/
def clear (_m : ordered_hash_map K V) : ordered_hash_map K V :=
  empty

end ordered_hash_map

/-! ## `ordered_pair.hpp` -/

/-- The struct `ordered_pair<T>`. -/
structure ordered_pair (T : Type) where
  first : T
  second : T
deriving DecidableEq, Repr

/-- The `operator==` of `ordered_pair`: both components have equal ids (`idOf p` is
`p->id`). -/
def ordered_pair.beqById {T : Type} (idOf : T → Nat) (p q : ordered_pair T) : Bool :=
  idOf p.first == idOf q.first && idOf p.second == idOf q.second

/-- `make_ordered_cell_pair(a, b)`, with `idOf p` standing for `p->id`. -/
def make_ordered_cell_pair {T : Type} (idOf : T → Nat) (a b : T) : ordered_pair T :=
  if idOf a < idOf b then { first := a, second := b } else { first := b, second := a }

/-! ## `vector3D.cpp`: the integer spatial hash -/

/-- Conversion to `unsigned int`: reduction modulo `2^32`. -/
def wrapU32 (n : Int) : Nat := (n % 4294967296).toNat

/-- Two's-complement `int` arithmetic: the representative of `n` modulo `2^32` in
`[-2^31, 2^31)`. -/
def wrapI32 (n : Int) : Int := (n + 2147483648) % 4294967296 - 2147483648

namespace Vector3D

/-- The unsigned expression `(A >= B ? A * A + A + B : A + B * B)` of `getHash`. -/
def szudzik (A B : Nat) : Nat :=
  if A ≥ B then (A * A + A + B) % 4294967296 else (A + B * B) % 4294967296

/-- The initialiser `(unsigned int)(a >= 0 ? 2 * a : -2 * a - 1)` of `getHash`. -/
def foldSign (a : Int) : Nat :=
  wrapU32 (if a ≥ 0 then wrapI32 (2 * a) else wrapI32 (wrapI32 (-2 * a) - 1))

/-- The static `getHash(int a, int b)`. -/
def getHash (a b : Int) : Int :=
  let A : Nat := foldSign a
  let B : Nat := foldSign b
  let C : Int := wrapI32 (Int.ofNat (szudzik A B / 2))
  if (a < 0 ∧ b < 0) ∨ (a ≥ 0 ∧ b ≥ 0) then C else wrapI32 (wrapI32 (-C) - 1)

/-- Conversion of an `int` to the 64-bit `std::size_t`. -/
def toSizeT (i : Int) : Nat := (i % 18446744073709551616).toNat

/-- The member `getHash() const`, `getHash(x, getHash(y, z))`, on a vector whose
coordinates convert to the `int`s `x`, `y`, `z`. -/
def getHash3 (x y z : Int) : Nat := toSizeT (getHash x (getHash y z))

/-- The pairing of `szudzik` computed without reduction modulo `2^32`. -/
def pairNat (A B : Nat) : Nat := if A ≥ B then A * A + A + B else A + B * B

end Vector3D

/-! ## `basicworld.hpp`

`BasicWorld` is a template over the `Cell` class, whose header is not part of the
sources at hand, like `grid.hpp`, `model.h` and the connection containers. What the
world calls on them is taken as a parameter (`CellType`, `cover`) or, when a theorem
depends on its effect, modelled and marked as such. -/

/-- A `Cell *`: an address, `0` being `nullptr`. -/
abbrev CellPtr := Nat

/-- What the world reads and writes in a `Cell` object: its `id`, the flag returned by
`isDead()`, the list returned by `getConnectedCells()`, and the rest of its state. -/
structure CellObj (σ : Type) where
  id : Nat
  dead : Bool
  connectedCells : List CellPtr
  st : σ

/-- The `Cell` objects, by address. -/
abbrev Heap (σ : Type) := CellPtr → CellObj σ

/-- Assignment to the object at address `c`. -/
def Heap.set {σ : Type} (h : Heap σ) (c : CellPtr) (o : CellObj σ) : Heap σ :=
  fun p => if p = c then o else h p

/-- `Cell::CellCellConnectionContainer`: connections keyed by the ordered pair of their
two cells (`std::hash<ordered_pair<T>>` is the hash of that key). -/
abbrev CellCellConnectionContainer (γ : Type) := List (ordered_pair CellPtr × γ)

/-- `Cell::CellModelConnectionContainer` as `removeModel` traverses it: for a model name,
for a cell, the connections of that cell with that model. -/
abbrev CellModelConnectionContainer (μ : Type) := List (String × List (CellPtr × List μ))

/-- A cell of the uniform grid. -/
abbrev GridCell := Int × Int × Int

/-- Modelled from the spec: `grid.hpp` is absent. A uniform hash grid is a table of
buckets, from a grid cell to the entities inserted for it, in insertion order. -/
structure Grid (O : Type) where
  um : List (GridCell × List O)

namespace Grid

variable {O : Type}

/-- Modelled from the spec: `clear()` drops all buckets. -/
def clear : Grid O := { um := [] }

/-- Modelled from the spec: appending a key to the bucket of one grid cell. -/
def push : List (GridCell × List O) → GridCell → O → List (GridCell × List O)
  | [], c, o => [(c, [o])]
  | (c1, os) :: rest, c, o =>
    if c1 = c then (c1, os ++ [o]) :: rest else (c1, os) :: push rest c o

/-- Modelled from the spec: `insert(key, p0, p1, p2)` appends the key to the bucket of
every grid cell the triangle's bounding region overlaps; `cells` lists those cells. -/
def insert (g : Grid O) (o : O) (cells : List GridCell) : Grid O :=
  { um := cells.foldl (fun um c => push um c o) g.um }

/-- Every key stored in the grid, bucket after bucket. -/
def entries (g : Grid O) : List O :=
  g.um.flatMap (fun b => b.2)

/-- Every key stored in the grid with the grid cell of its bucket. -/
def located (g : Grid O) : List (GridCell × O) :=
  g.um.flatMap (fun b => b.2.map (fun o => (b.1, o)))

end Grid

/-- A face of a model: its three vertex indices `indices[0..2]`. -/
structure Face where
  i0 : Nat
  i1 : Nat
  i2 : Nat

/-- What the world reads in a `Model` (`model.h` is absent): its name, vertices and
faces, and the flag behind `changedSinceLastCheck()`. -/
structure Model (V : Type) where
  name : String
  vertices : List V
  faces : List Face
  dirty : Bool

/-- Modelled from the spec: `changedSinceLastCheck()` returns the dirty flag of the model
and clears it. -/
def Model.changedSinceLastCheck {V : Type} (m : Model V) : Bool × Model V :=
  (m.dirty, { m with dirty := false })

/-- The members of the `Cell` class that `BasicWorld` calls, as state transformers on
the heap of cells and on the containers they receive by reference. `friction ν c` is the
value of `-6.0 * M_PI * viscosityCoef * c->getBoundingBoxRadius() * c->getVelocity()` and
`weight g c` the value of `g * c->getMass()`. `updateBehavior` is `none` when
`behaviorsEnabled` is false. -/
structure CellType (σ V R γ μ : Type) where
  updateBehavior : Option (R → CellPtr → Heap σ → Heap σ × CellPtr)
  updateStats : CellPtr → Heap σ → Heap σ
  resetForces : CellPtr → Heap σ → Heap σ
  applyExternalForces : CellPtr → Heap σ → Heap σ
  applyExternalTorque : CellPtr → Heap σ → Heap σ
  resetExternalForces : CellPtr → Heap σ → Heap σ
  resetExternalTorque : CellPtr → Heap σ → Heap σ
  friction : R → CellObj σ → V
  weight : V → CellObj σ → V
  receiveForce : V → CellPtr → Heap σ → Heap σ
  updateCellCellConnections :
    CellCellConnectionContainer γ → R → Heap σ → CellCellConnectionContainer γ × Heap σ
  updateCellModelConnections :
    CellModelConnectionContainer μ → R → Heap σ → CellModelConnectionContainer μ × Heap σ
  updatePositionsAndOrientations : R → CellPtr → Heap σ → Heap σ
  checkForCellCellConnections :
    List CellPtr → CellCellConnectionContainer γ → Grid CellPtr → Heap σ →
      CellCellConnectionContainer γ × Grid CellPtr × Heap σ
  checkForCellModelConnections :
    List CellPtr → List (String × Model V) → CellModelConnectionContainer μ →
      Grid (String × Nat) → Heap σ → CellModelConnectionContainer μ × Heap σ
  removeModelConnection : μ → CellPtr → Heap σ → Heap σ

/-- Modelled from the spec: `Cell::disconnectAndDeleteAllConnections(c, con)` is absent.
It severs and deletes all the connections of `c` held by the container it is given: the
entries with `c` as a component leave `con`, `c` leaves the connected cells of every
cell and its own list is emptied. -/
def disconnectAndDeleteAllConnections {σ γ : Type} (c : CellPtr)
    (con : CellCellConnectionContainer γ) (h : Heap σ) :
    CellCellConnectionContainer γ × Heap σ :=
  (con.filter (fun e => decide (e.1.first ≠ c ∧ e.1.second ≠ c)),
   fun p =>
     if p = c then { h p with connectedCells := [] }
     else { h p with connectedCells := (h p).connectedCells.filter (fun q => decide (q ≠ c)) })

/-- The class `BasicWorld`. The members `cells` hold addresses; `heap` is the memory in
which the `Cell` objects live. `models` lists the registry `unordered_map<string,
model_type>` (one entry a name); a `model_type *` is represented by that name. The
counter `nbAddedCells` (a `size_t`) is unbounded here: runs of `2^64` registrations are
not covered. `frame` is an `int`: a value in `[-2^31, 2^31)`, incremented with `wrapI32`. -/
structure BasicWorld (σ V R γ μ : Type) where
  dt : R
  nbAddedCells : Nat
  cellSpacePartition : Grid CellPtr
  modelSpacePartition : Grid (String × Nat)
  cellCellCollisions : Bool
  cellModelCollisions : Bool
  g : V
  viscosityCoef : R
  frame : Int
  cellCellConnections : CellCellConnectionContainer γ
  cellModelConnections : CellModelConnectionContainer μ
  cells : List CellPtr
  models : List (String × Model V)
  heap : Heap σ

namespace BasicWorld

variable {σ V R γ μ : Type}

/-- A newly constructed world, with the values of the member initialisers passed for the
floating-point members, in a memory `heap`. -/
def init (dt viscosityCoef : R) (g : V) (heap : Heap σ) : BasicWorld σ V R γ μ :=
  { dt := dt, nbAddedCells := 0, cellSpacePartition := Grid.clear,
    modelSpacePartition := Grid.clear, cellCellCollisions := true,
    cellModelCollisions := true, g := g, viscosityCoef := viscosityCoef, frame := 0,
    cellCellConnections := [], cellModelConnections := [], cells := [], models := [],
    heap := heap }

/-- `addCell(c)`. -/
def addCell (w : BasicWorld σ V R γ μ) (c : CellPtr) : BasicWorld σ V R γ μ :=
  if c ≠ 0 then
    { w with
      cells := w.cells ++ [c]
      heap := w.heap.set c { w.heap c with id := w.nbAddedCells }
      nbAddedCells := w.nbAddedCells + 1 }
  else w

/-- The loop of `destroyDeadCells` from iterator `i` on: `rest` is the part of `cells`
from `i` to `end()`. A dead cell is disconnected, erased and deleted (the memory model
keeps the stale object); a live one is stepped over. -/
def destroyLoop : List CellPtr → CellCellConnectionContainer γ → Heap σ →
    List CellPtr × CellCellConnectionContainer γ × Heap σ
  | [], con, h => ([], con, h)
  | c :: rest, con, h =>
    if (h c).dead then
      let r := disconnectAndDeleteAllConnections c con h
      destroyLoop rest r.1 r.2
    else
      let r := destroyLoop rest con h
      (c :: r.1, r.2.1, r.2.2)

/-- `destroyDeadCells()`. -/
def destroyDeadCells (w : BasicWorld σ V R γ μ) : BasicWorld σ V R γ μ :=
  let r := destroyLoop w.cells w.cellCellConnections w.heap
  { w with cells := r.1, cellCellConnections := r.2.1, heap := r.2.2 }

/-- The state of the first loop of `updateBehaviors`: the memory and the vector
`newCells`. -/
structure BehaviorLoop (σ : Type) where
  heap : Heap σ
  newCells : List CellPtr

/-- The first loop of `updateBehaviors`: `for (auto &c : cells)`, call
`c->updateBehavior(dt)` and push a non-null result on `newCells`. -/
def behaviorLoop (f : R → CellPtr → Heap σ → Heap σ × CellPtr) (dt : R)
    (cells : List CellPtr) (h : Heap σ) : BehaviorLoop σ :=
  cells.foldl
    (fun s c =>
      let r := f dt c s.heap
      { heap := r.1
        newCells := if r.2 ≠ 0 then s.newCells ++ [r.2] else s.newCells })
    { heap := h, newCells := [] }

/-- `updateBehaviors()`: the overload for `behaviorsEnabled` runs the first loop, then
`addCell` on every element of `newCells`; the other overload does nothing. -/
def updateBehaviors (ct : CellType σ V R γ μ) (w : BasicWorld σ V R γ μ) :
    BasicWorld σ V R γ μ :=
  match ct.updateBehavior with
  | some f =>
    let s := behaviorLoop f w.dt w.cells w.heap
    s.newCells.foldl addCell { w with heap := s.heap }
  | none => w

/-- The cells pushed on `newCells` by the behaviour phase started in `w`. -/
def spawned (ct : CellType σ V R γ μ) (w : BasicWorld σ V R γ μ) : List CellPtr :=
  match ct.updateBehavior with
  | some f => (behaviorLoop f w.dt w.cells w.heap).newCells
  | none => []

/-- `prepareCellForNextUpdate()`. -/
def prepareCellForNextUpdate (ct : CellType σ V R γ μ) (w : BasicWorld σ V R γ μ) :
    BasicWorld σ V R γ μ :=
  { w with
    heap := w.cells.foldl
      (fun h c =>
        ct.resetExternalTorque c (ct.resetExternalForces c (ct.applyExternalTorque c
          (ct.applyExternalForces c (ct.resetForces c (ct.updateStats c h))))))
      w.heap }

/-- `addWorldSpecificForces()`: friction, then gravity, on every cell. -/
def addWorldSpecificForces (ct : CellType σ V R γ μ) (w : BasicWorld σ V R γ μ) :
    BasicWorld σ V R γ μ :=
  { w with
    heap := w.cells.foldl
      (fun h c =>
        let h1 := ct.receiveForce (ct.friction w.viscosityCoef (h c)) c h
        ct.receiveForce (ct.weight w.g (h1 c)) c h1)
      w.heap }

/-- `updateExistingCollisionsAndConnections()`. -/
def updateExistingCollisionsAndConnections (ct : CellType σ V R γ μ)
    (w : BasicWorld σ V R γ μ) : BasicWorld σ V R γ μ :=
  let r1 := ct.updateCellCellConnections w.cellCellConnections w.dt w.heap
  let r2 := ct.updateCellModelConnections w.cellModelConnections w.dt r1.2
  { w with cellCellConnections := r1.1, cellModelConnections := r2.1, heap := r2.2 }

/-- `updateCellsPositions()`. -/
def updateCellsPositions (ct : CellType σ V R γ μ) (w : BasicWorld σ V R γ μ) :
    BasicWorld σ V R γ μ :=
  { w with
    heap := w.cells.foldl (fun h c => ct.updatePositionsAndOrientations w.dt c h) w.heap }

/-- `lookForNewCollisionsAndConnections()`. -/
def lookForNewCollisionsAndConnections (ct : CellType σ V R γ μ)
    (w : BasicWorld σ V R γ μ) : BasicWorld σ V R γ μ :=
  let w1 :=
    if w.cellCellCollisions then
      let r := ct.checkForCellCellConnections w.cells w.cellCellConnections
        w.cellSpacePartition w.heap
      { w with cellCellConnections := r.1, cellSpacePartition := r.2.1, heap := r.2.2 }
    else w
  if w1.cellModelCollisions && decide (w1.models.length > 0) then
    let r := ct.checkForCellModelConnections w1.cells w1.models w1.cellModelConnections
      w1.modelSpacePartition w1.heap
    { w1 with cellModelConnections := r.1, heap := r.2 }
  else w1

/-- `insertInGrid(m)` on a grid: one insertion a face, keyed by the model (its registry
name `key`) and the face index. `cover p0 p1 p2` lists the grid cells overlapped by the
triangle, a floating-point computation of the grid. -/
def insertInGrid [Inhabited V] (cover : V → V → V → List GridCell) (key : String)
    (m : Model V) (grid : Grid (String × Nat)) : Grid (String × Nat) :=
  (List.range m.faces.length).foldl
    (fun g i =>
      let f := m.faces.getD i { i0 := 0, i1 := 0, i2 := 0 }
      g.insert (key, i)
        (cover (m.vertices.getD f.i0 default) (m.vertices.getD f.i1 default)
          (m.vertices.getD f.i2 default)))
    grid

/-- The rebuild shared by `removeModel` and `updateModelGrid`:
`modelSpacePartition.clear()` followed by `insertInGrid` on every registered model. -/
def rebuildModelGrid [Inhabited V] (cover : V → V → V → List GridCell)
    (models : List (String × Model V)) : Grid (String × Nat) :=
  models.foldl (fun g m => insertInGrid cover m.1 m.2 g) Grid.clear

/-- The first loop of `updateModelGrid`: `changedSinceLastCheck()` is called on every
model; the result is the registry after the calls and the value of `modelChange`. -/
def checkModels : List (String × Model V) → Bool → List (String × Model V) × Bool
  | [], modelChange => ([], modelChange)
  | (n, m) :: rest, modelChange =>
    let r := m.changedSinceLastCheck
    let t := checkModels rest (if r.1 then true else modelChange)
    ((n, r.2) :: t.1, t.2)

/-- `updateModelGrid()`. -/
def updateModelGrid [Inhabited V] (cover : V → V → V → List GridCell)
    (w : BasicWorld σ V R γ μ) : BasicWorld σ V R γ μ :=
  let r := checkModels w.models false
  if r.2 then
    { w with models := r.1, modelSpacePartition := rebuildModelGrid cover r.1 }
  else { w with models := r.1 }

/-- `removeModel(name)`. -/
def removeModel [Inhabited V] (ct : CellType σ V R γ μ)
    (cover : V → V → V → List GridCell) (w : BasicWorld σ V R γ μ) (name : String) :
    BasicWorld σ V R γ μ :=
  let models1 :=
    if w.models.any (fun m => m.1 == name) then w.models.filter (fun m => m.1 != name)
    else w.models
  let r : CellModelConnectionContainer μ × Heap σ :=
    match w.cellModelConnections.lookup name with
    | some perCell =>
      (w.cellModelConnections.filter (fun e => e.1 != name),
       perCell.foldl
         (fun (h : Heap σ) (c : CellPtr × List μ) =>
           c.2.foldl (fun h1 conn => ct.removeModelConnection conn c.1 h1) h)
         w.heap)
    | none => (w.cellModelConnections, w.heap)
  { w with
    models := models1
    cellModelConnections := r.1
    heap := r.2
    modelSpacePartition := rebuildModelGrid cover models1 }

/-- The first seven phases of `update()`, up to and including `updateBehaviors()`. -/
def beforeReap [Inhabited V] (ct : CellType σ V R γ μ) (cover : V → V → V → List GridCell)
    (w : BasicWorld σ V R γ μ) : BasicWorld σ V R γ μ :=
  updateBehaviors ct (lookForNewCollisionsAndConnections ct (updateCellsPositions ct
    (updateExistingCollisionsAndConnections ct (addWorldSpecificForces ct
      (prepareCellForNextUpdate ct (updateModelGrid cover w))))))

/-- `update()`; `++frame` is an increment of a 32-bit `int`. -/
def update [Inhabited V] (ct : CellType σ V R γ μ) (cover : V → V → V → List GridCell)
    (w : BasicWorld σ V R γ μ) : BasicWorld σ V R γ μ :=
  let w1 := updateModelGrid cover w
  let w2 := prepareCellForNextUpdate ct w1
  let w3 := addWorldSpecificForces ct w2
  let w4 := updateExistingCollisionsAndConnections ct w3
  let w5 := updateCellsPositions ct w4
  let w6 := lookForNewCollisionsAndConnections ct w5
  let w7 := updateBehaviors ct w6
  let w8 := destroyDeadCells w7
  { w8 with frame := wrapI32 (w8.frame + 1) }

/-- The cells referenced by the entries of the agent-agent container. -/
def cellCellRefs (con : CellCellConnectionContainer γ) : List CellPtr :=
  con.flatMap (fun e => [e.1.first, e.1.second])

/-- The cells referenced by the entries of the agent-model container. -/
def cellModelRefs (con : CellModelConnectionContainer μ) : List CellPtr :=
  con.flatMap (fun e => e.2.map Prod.fst)

/-- The world invariant on connections: every agent in a connection, of either kind, is
present in the agent collection. -/
def ConnectionsPresent (w : BasicWorld σ V R γ μ) : Prop :=
  (∀ p ∈ cellCellRefs w.cellCellConnections, p ∈ w.cells) ∧
  (∀ p ∈ cellModelRefs w.cellModelConnections, p ∈ w.cells)

/-! ### The step of the specification

The definitions from here to `specStep` follow the words of the specification of the
world orchestrator (its per-frame state machine), not the code. The theorems compare
`update` and its phases with them. -/

/-- The grid cells overlapped by face `i` of a model: those of the triangle of its three
vertices, none when the model has no face `i`. -/
def faceCover [Inhabited V] (cover : V → V → V → List GridCell) (m : Model V) (i : Nat) :
    List GridCell :=
  match m.faces[i]? with
  | some f =>
    cover (m.vertices.getD f.i0 default) (m.vertices.getD f.i1 default)
      (m.vertices.getD f.i2 default)
  | none => []

/-- What the model partition has to hold for a registry: for every registered model, for
every face of it, for every grid cell the face overlaps, the key (model, face index) in
that cell. -/
def expectedEntries [Inhabited V] (cover : V → V → V → List GridCell)
    (models : List (String × Model V)) : List (GridCell × (String × Nat)) :=
  models.flatMap (fun nm =>
    (List.range nm.2.faces.length).flatMap (fun i =>
      (faceCover cover nm.2 i).map (fun c => (c, (nm.1, i)))))

/-- The memory after the behaviour hook `f` has been invoked once on each agent of
`cells`, in order. -/
def hookedHeap (f : R → CellPtr → Heap σ → Heap σ × CellPtr) (dt : R) :
    List CellPtr → Heap σ → Heap σ
  | [], h => h
  | c :: cs, h => hookedHeap f dt cs (f dt c h).1

/-- The results of these invocations, in the order of the agents that returned them. -/
def hookResults (f : R → CellPtr → Heap σ → Heap σ × CellPtr) (dt : R) :
    List CellPtr → Heap σ → List CellPtr
  | [], _ => []
  | c :: cs, h => (f dt c h).2 :: hookResults f dt cs (f dt c h).1

/-- A cell type whose only state is the number of times the behaviour hook was invoked
on the cell, and whose hook returns `spawnOf c` on the cell `c`; the other members do
nothing. -/
def countingCell (spawnOf : CellPtr → CellPtr) : CellType Nat Unit Unit Unit Unit :=
  { updateBehavior := some (fun _ c h => (h.set c { h c with st := (h c).st + 1 }, spawnOf c))
    updateStats := fun _ h => h
    resetForces := fun _ h => h
    applyExternalForces := fun _ h => h
    applyExternalTorque := fun _ h => h
    resetExternalForces := fun _ h => h
    resetExternalTorque := fun _ h => h
    friction := fun _ _ => ()
    weight := fun _ _ => ()
    receiveForce := fun _ _ h => h
    updateCellCellConnections := fun con _ h => (con, h)
    updateCellModelConnections := fun con _ h => (con, h)
    updatePositionsAndOrientations := fun _ _ h => h
    checkForCellCellConnections := fun _ con g h => (con, g, h)
    checkForCellModelConnections := fun _ _ con _ h => (con, h)
    removeModelConnection := fun _ _ h => h }

/-- A behaviour hook: the cell at address `2` flags itself dead and spawns nothing, the
cell at address `1` spawns the cell at address `3`, every other cell does nothing. -/
def demoBehavior (_dt : Unit) (c : CellPtr) (h : Heap Unit) : Heap Unit × CellPtr :=
  if c = 2 then (h.set 2 { h 2 with dead := true }, 0)
  else if c = 1 then (h, 3)
  else (h, 0)

/-- A `Cell` class without state whose members other than `demoBehavior` do nothing. -/
def demoCell : CellType Unit Unit Unit Unit Unit :=
  { updateBehavior := some demoBehavior
    updateStats := fun _ h => h
    resetForces := fun _ h => h
    applyExternalForces := fun _ h => h
    applyExternalTorque := fun _ h => h
    resetExternalForces := fun _ h => h
    resetExternalTorque := fun _ h => h
    friction := fun _ _ => ()
    weight := fun _ _ => ()
    receiveForce := fun _ _ h => h
    updateCellCellConnections := fun con _ h => (con, h)
    updateCellModelConnections := fun con _ h => (con, h)
    updatePositionsAndOrientations := fun _ _ h => h
    checkForCellCellConnections := fun _ con g h => (con, g, h)
    checkForCellModelConnections := fun _ _ con _ h => (con, h)
    removeModelConnection := fun _ _ h => h }

/-- A memory of live, unconnected cells with id `0`. -/
def demoHeap : Heap Unit :=
  fun _ => { id := 0, dead := false, connectedCells := [], st := () }

/-- An empty world over `demoHeap`. -/
def demoWorld : BasicWorld Unit Unit Unit Unit Unit :=
  init () () () demoHeap

/-- A world with one agent, at address `1`, flagged dead, whose only connection is an
agent-model connection with the model `floor`. -/
def deadCellOnModel : BasicWorld Unit Unit Unit Unit Unit :=
  { (init () () () (fun _ => { id := 0, dead := true, connectedCells := [], st := () }) :
      BasicWorld Unit Unit Unit Unit Unit) with
    nbAddedCells := 1
    cells := [1]
    cellModelConnections := [("floor", [(1, [()])])] }

/-- The world `demoWorld` after the agents at addresses `1` and `2` were added. -/
def demoPair : BasicWorld Unit Unit Unit Unit Unit :=
  addCell (addCell demoWorld 1) 2

end BasicWorld

/-! ## `vector3D.cpp`: vector algebra

The coordinates are `double`s in the program; here they range over a field `F`, the
reals in the theorems. `sqrt`, `sin` and `cos` of `<cmath>` are passed as functions, and
`double2int` (declared in `tools.h`, absent) as well. -/

/-- The class `Vector3D`: its three coordinates. -/
structure Vector3D (F : Type) where
  x : F
  y : F
  z : F

namespace Vector3D

variable {F : Type}

/-- `dot(v)`. -/
def dot [Field F] (u v : Vector3D F) : F :=
  u.x * v.x + u.y * v.y + u.z * v.z

/-- `cross(v)`. -/
def cross [Field F] (u v : Vector3D F) : Vector3D F :=
  { x := u.y * v.z - u.z * v.y, y := u.z * v.x - u.x * v.z, z := u.x * v.y - u.y * v.x }

/-- `operator+(const Vector3D &)`. -/
def add [Field F] (u v : Vector3D F) : Vector3D F :=
  { x := u.x + v.x, y := u.y + v.y, z := u.z + v.z }

/-- `operator-(const Vector3D &)`. -/
def sub [Field F] (u v : Vector3D F) : Vector3D F :=
  { x := u.x - v.x, y := u.y - v.y, z := u.z - v.z }

/-- `operator/(const double &)`. -/
def divScalar [Field F] (u : Vector3D F) (s : F) : Vector3D F :=
  { x := u.x / s, y := u.y / s, z := u.z / s }

/-- The free `operator*(const Vector3D &v, const double &s)`. -/
def mulScalar [Field F] (v : Vector3D F) (s : F) : Vector3D F :=
  { x := v.x * s, y := v.y * s, z := v.z * s }

/-- The free `operator*(const double &s, const Vector3D &v)`. -/
def scalarMul [Field F] (s : F) (v : Vector3D F) : Vector3D F :=
  { x := v.x * s, y := v.y * s, z := v.z * s }

/-- `length()`. -/
def length [Field F] (sqrt : F → F) (v : Vector3D F) : F :=
  sqrt (v.x * v.x + v.y * v.y + v.z * v.z)

/-- `sqlength()`. -/
def sqlength [Field F] (v : Vector3D F) : F :=
  v.x * v.x + v.y * v.y + v.z * v.z

/-- The receiver after `normalize()`: `*this = *this / length()`. -/
def normalize [Field F] (sqrt : F → F) (v : Vector3D F) : Vector3D F :=
  v.divScalar (v.length sqrt)

/-- `normalized()`. -/
def normalized [Field F] (sqrt : F → F) (v : Vector3D F) : Vector3D F :=
  let l := v.length sqrt
  { x := v.x / l, y := v.y / l, z := v.z / l }

/-- `rotated(angle, vec)` on the receiver `self`. -/
def rotated [Field F] (sin cos : F → F) (self : Vector3D F) (angle : F) (vec : Vector3D F) :
    Vector3D F :=
  let halfangle := angle * 0.5
  let v := vec.mulScalar (sin halfangle)
  let vcV := scalarMul 2.0 (v.cross self)
  (self.add (scalarMul (cos halfangle) vcV)).add (v.cross vcV)

/-- The static `rayCast(o, n, p, r)`. -/
def rayCast [Field F] [DecidableEq F] (o n p r : Vector3D F) : F :=
  let nr := n.dot r
  if nr = 0 then 0 else n.dot (o.sub p) / nr

/-- The static `getProjectionOnPlane(o, n, p)`. -/
def getProjectionOnPlane [Field F] (o n p : Vector3D F) : Vector3D F :=
  p.sub (scalarMul (n.dot (p.sub o)) n)

/-- A loop `for (int i = lo; i <= hi; i += inc)` whose body returns the calls it makes:
the calls of the whole loop, or `none` when `fuel` iterations do not end it. The counter
is a 32-bit `int`: `i += inc` wraps. -/
def forInt {α : Type} : Nat → Int → Int → Int → (Int → Option (List α)) → Option (List α)
  | 0, i, hi, _, _ => if i ≤ hi then none else some []
  | fuel + 1, i, hi, inc, body =>
    if i ≤ hi then
      (body i).bind (fun a =>
        (forInt fuel (wrapI32 (i + inc)) hi inc body).map (fun r => a ++ r))
    else some []

/-- One of the three `if`/`else` of `iterateTo`, for the coordinate `a` of the receiver
and `b` of the argument: the pair of the bounds `(im, iM)`. `double2int` returns an
`int`: its value is taken in the 32-bit range. -/
def bounds [LinearOrder F] (double2int : F → Int) (a b : F) : Int × Int :=
  if a < b then (wrapI32 (double2int a), wrapI32 (double2int b))
  else (wrapI32 (double2int b), wrapI32 (double2int a))

/-- The converted coordinate `c` is an `int` that the counter can pass by `inc` without
overflow. -/
def InIntRange (double2int : F → Int) (inc : Int) (c : F) : Prop :=
  -2147483648 ≤ double2int c ∧ double2int c + inc ≤ 2147483647

/-- `iterateTo(v, fun, inc)` on the receiver `self`: the points `(i, j, k)` on which `fun`
is called, as `Vector3D(i, j, k)`, in call order; `none` when a loop does not end within
`fuel` iterations. The six bounds and the three counters are `int`s (`bounds`,
`forInt`). -/
def iterateTo [LinearOrder F] (double2int : F → Int) (fuel : Nat) (self v : Vector3D F)
    (inc : Int) : Option (List (Int × Int × Int)) :=
  let bi := bounds double2int self.x v.x
  let bj := bounds double2int self.y v.y
  let bk := bounds double2int self.z v.z
  forInt fuel bi.1 bi.2 inc (fun i =>
    forInt fuel bj.1 bj.2 inc (fun j =>
      forInt fuel bk.1 bk.2 inc (fun k => some [(i, j, k)])))

/-- The integers from `lo` to `hi`, both included, in increasing order. -/
def intRange (lo hi : Int) : List Int :=
  (List.range (hi + 1 - lo).toNat).map (fun (n : Nat) => lo + (n : Int))

/-- The integer points of a box, in lexicographic order. -/
def boxPoints (im iM jm jM km kM : Int) : List (Int × Int × Int) :=
  (intRange im iM).flatMap (fun i =>
    (intRange jm jM).flatMap (fun j => (intRange km kM).flatMap (fun k => [(i, j, k)])))

/-- The strict lexicographic order on integer triples. -/
def lexLt (p q : Int × Int × Int) : Prop :=
  p.1 < q.1 ∨ (p.1 = q.1 ∧ (p.2.1 < q.2.1 ∨ (p.2.1 = q.2.1 ∧ p.2.2 < q.2.2)))

end Vector3D

/-- Modelled from the spec: `unique_vector` is declared in the absent `tools.h`. It is
the de-duplicating vector behind `getConnectedCellsList`: `insert` appends an element
unless an equal one, by `operator==` (`eq`), is stored already, so the first of equal
elements is the one kept. -/
def unique_vector.insert {α : Type} (eq : α → α → Bool) (u : List α) (a : α) : List α :=
  if u.any (fun b => eq b a) then u else u ++ [a]

namespace BasicWorld

variable {σ V R γ μ : Type}

/-- `getConnectedCellsList()`. -/
def getConnectedCellsList (w : BasicWorld σ V R γ μ) : List (CellPtr × CellPtr) :=
  let uniquePairs :=
    w.cells.foldl
      (fun u c =>
        (w.heap c).connectedCells.foldl
          (fun u1 other =>
            unique_vector.insert (ordered_pair.beqById (fun p => (w.heap p).id)) u1
              (make_ordered_cell_pair (fun p => (w.heap p).id) c other))
          u)
      []
  uniquePairs.map (fun p => (p.first, p.second))

/-- `getNbOfCellCellConnections()`. -/
def getNbOfCellCellConnections (w : BasicWorld σ V R γ μ) : Nat :=
  (getConnectedCellsList w).length

/-- The connected pairs of the world: an agent of the collection with one of its
connected cells, in the order in which `getConnectedCellsList` meets them. -/
def connectedPairs (w : BasicWorld σ V R γ μ) : List (CellPtr × CellPtr) :=
  w.cells.flatMap (fun c => (w.heap c).connectedCells.map (fun o => (c, o)))

/-- The agents that occur in a connected pair. -/
def connectedAgents (w : BasicWorld σ V R γ μ) : List CellPtr :=
  (connectedPairs w).flatMap (fun p => [p.1, p.2])

/-- `addModel(name, path)`: `models.emplace(name, path)` inserts the model built from
`path` (by `load`, the constructor of the absent `model.h`) when `name` has no entry;
then the entry of `name` gets `name` as its name. -/
def addModel (load : String → Model V) (w : BasicWorld σ V R γ μ) (name path : String) :
    BasicWorld σ V R γ μ :=
  let models1 :=
    if w.models.any (fun m => m.1 == name) then w.models
    else w.models ++ [(name, load path)]
  { w with
    models := models1.map (fun m => if m.1 == name then (m.1, { m.2 with name := name }) else m) }

/-- `disableCellCellCollisions()`. -/
def disableCellCellCollisions (w : BasicWorld σ V R γ μ) : BasicWorld σ V R γ μ :=
  { w with cellCellCollisions := false }

/-- `setG(v)`. -/
def setG (w : BasicWorld σ V R γ μ) (v : V) : BasicWorld σ V R γ μ :=
  { w with g := v }

/-- `setDt(d)`. -/
def setDt (w : BasicWorld σ V R γ μ) (d : R) : BasicWorld σ V R γ μ :=
  { w with dt := d }

/-- `setViscosityCoef(d)`. -/
def setViscosityCoef (w : BasicWorld σ V R γ μ) (d : R) : BasicWorld σ V R γ μ :=
  { w with viscosityCoef := d }

/-- The public member functions of `BasicWorld` that are not `const` and write the
world, with their arguments. (The getters, the `nan...` predicates, `getAllVelocities`,
`getAllForces` and `getConnectedCellsList` return values and leave the world as it is.) -/
inductive WorldCall (V R : Type) where
  | setG (v : V)
  | setDt (d : R)
  | setViscosityCoef (d : R)
  | disableCellCellCollisions
  | updateBehaviors
  | prepareCellForNextUpdate
  | addWorldSpecificForces
  | updateExistingCollisionsAndConnections
  | updateCellsPositions
  | lookForNewCollisionsAndConnections
  | update
  | addModel (name path : String)
  | removeModel (name : String)
  | insertInGrid (key : String) (m : Model V)
  | updateModelGrid
  | addCell (c : CellPtr)
  | destroyDeadCells

/-- The world after a call of a public member function. -/
def applyCall [Inhabited V] (ct : CellType σ V R γ μ) (cover : V → V → V → List GridCell)
    (load : String → Model V) (w : BasicWorld σ V R γ μ) :
    WorldCall V R → BasicWorld σ V R γ μ
  | .setG v => setG w v
  | .setDt d => setDt w d
  | .setViscosityCoef d => setViscosityCoef w d
  | .disableCellCellCollisions => disableCellCellCollisions w
  | .updateBehaviors => updateBehaviors ct w
  | .prepareCellForNextUpdate => prepareCellForNextUpdate ct w
  | .addWorldSpecificForces => addWorldSpecificForces ct w
  | .updateExistingCollisionsAndConnections => updateExistingCollisionsAndConnections ct w
  | .updateCellsPositions => updateCellsPositions ct w
  | .lookForNewCollisionsAndConnections => lookForNewCollisionsAndConnections ct w
  | .update => update ct cover w
  | .addModel name path => addModel load w name path
  | .removeModel name => removeModel ct cover w name
  | .insertInGrid key m =>
    { w with modelSpacePartition := insertInGrid cover key m w.modelSpacePartition }
  | .updateModelGrid => updateModelGrid cover w
  | .addCell c => addCell w c
  | .destroyDeadCells => destroyDeadCells w

/-- A world with three agents: `1` and `2` are connected to each other, `3` to `1`
only on its own side; ids are the addresses. -/
def demoConnected : BasicWorld Unit Unit Unit Unit Unit :=
  { (init () () () (fun p =>
      { id := p, dead := false, st := (),
        connectedCells := if p = 1 then [2] else if p = 2 then [1] else if p = 3 then [1]
          else [] }) : BasicWorld Unit Unit Unit Unit Unit) with
    nbAddedCells := 4
    cells := [2, 1, 3] }

end BasicWorld

/-! ## Theorems -/

namespace ordered_hash_map

variable {K V : Type}

end ordered_hash_map

namespace Vector3D

theorem pairNat_lower (A B : Nat) : max A B * max A B ≤ pairNat A B := by
  unfold pairNat
  split_ifs with h
  · rw [max_eq_left h]; omega
  · rw [max_eq_right (by omega)]; omega

theorem pairNat_upper (A B : Nat) : pairNat A B ≤ max A B * max A B + 2 * max A B := by
  unfold pairNat
  split_ifs with h
  · rw [max_eq_left h]; omega
  · rw [max_eq_right (by omega)]; omega

theorem pairNat_of_ge {A B : Nat} (h : A ≥ B) : pairNat A B = A * A + A + B := by
  simp [pairNat, h]

theorem pairNat_of_lt {A B : Nat} (h : A < B) : pairNat A B = A + B * B := by
  have : ¬ A ≥ B := by omega
  simp [pairNat, this]

theorem sq_gap (M N P Q d : Nat) (h1 : M * M ≤ P) (h2 : Q ≤ N * N + 2 * N) (h : P ≤ Q + d)
    (hd : d ≤ 1) : M ≤ N + d := by
  by_contra hc
  push_neg at hc
  have h3 : (N + d + 1) * (N + d + 1) ≤ M * M := Nat.mul_le_mul hc hc
  have h4 : (N + d + 1) * (N + d + 1) = N * N + 2 * N + 1 + d * d + 2 * d + 2 * (N * d) := by ring
  have h5 : 0 ≤ N * d := Nat.zero_le _
  have h6 : 0 ≤ d * d := Nat.zero_le _
  omega

theorem max_le_of_pair_lt (A B A' B' : Nat) (h : pairNat A B ≤ pairNat A' B' + 1) :
    max A B ≤ max A' B' + 1 :=
  sq_gap _ _ _ _ 1 (pairNat_lower A B) (pairNat_upper A' B') h (le_refl _)

theorem max_le_of_pair_le (A B A' B' : Nat) (h : pairNat A B ≤ pairNat A' B') :
    max A B ≤ max A' B' :=
  sq_gap _ _ _ _ 0 (pairNat_lower A B) (pairNat_upper A' B') h (by omega)

theorem pairNat_inj (A B A' B' : Nat) (h : pairNat A B = pairNat A' B') : A = A' ∧ B = B' := by
  have hm : max A B = max A' B' :=
    le_antisymm (max_le_of_pair_le _ _ _ _ (le_of_eq h)) (max_le_of_pair_le _ _ _ _ (le_of_eq h.symm))
  rcases Nat.lt_or_ge A B with h1 | h1 <;> rcases Nat.lt_or_ge A' B' with h2 | h2
  · rw [pairNat_of_lt h1, pairNat_of_lt h2] at h
    rw [max_eq_right (le_of_lt h1), max_eq_right (le_of_lt h2)] at hm
    subst hm; omega
  · rw [pairNat_of_lt h1, pairNat_of_ge h2] at h
    rw [max_eq_right (le_of_lt h1), max_eq_left h2] at hm
    subst hm; omega
  · rw [pairNat_of_ge h1, pairNat_of_lt h2] at h
    rw [max_eq_left h1, max_eq_right (le_of_lt h2)] at hm
    subst hm; omega
  · rw [pairNat_of_ge h1, pairNat_of_ge h2] at h
    rw [max_eq_left h1, max_eq_left h2] at hm
    subst hm; omega

theorem even_mul_self_add (A : Nat) : (A * A + A) % 2 = 0 := by
  have h : A * A + A = A * (A + 1) := by ring
  rw [h]
  exact Nat.even_iff.mp (Nat.even_mul_succ_self A)

/-- Halving loses nothing within one parity class. -/
theorem pairNat_half_step (A B A' B' : Nat)
    (hcl : (A % 2 = B % 2) ↔ (A' % 2 = B' % 2))
    (hs : pairNat A' B' = pairNat A B + 1) (he : pairNat A B % 2 = 0) : False := by
  have hm1 : max A' B' ≤ max A B + 1 := max_le_of_pair_lt _ _ _ _ (by omega)
  have hm2 : max A B ≤ max A' B' := max_le_of_pair_le _ _ _ _ (by omega)
  have hAA := even_mul_self_add A
  have hBB := even_mul_self_add B
  rcases Nat.lt_or_ge A B with h1 | h1 <;> rcases Nat.lt_or_ge A' B' with h2 | h2
  · rw [pairNat_of_lt h1] at hs he
    rw [pairNat_of_lt h2] at hs
    rw [max_eq_right (le_of_lt h1), max_eq_right (le_of_lt h2)] at hm1 hm2
    have hcase : B' = B ∨ B' = B + 1 := by omega
    rcases hcase with e | e
    · subst e
      have : A' = A + 1 := by omega
      omega
    · subst e
      have : (B + 1) * (B + 1) = B * B + 2 * B + 1 := by ring
      omega
  · rw [pairNat_of_lt h1] at hs he
    rw [pairNat_of_ge h2] at hs
    rw [max_eq_right (le_of_lt h1), max_eq_left h2] at hm1 hm2
    have hcase : A' = B ∨ A' = B + 1 := by omega
    rcases hcase with e | e
    · subst e
      omega
    · subst e
      have : (B + 1) * (B + 1) = B * B + 2 * B + 1 := by ring
      omega
  · rw [pairNat_of_ge h1] at hs he
    rw [pairNat_of_lt h2] at hs
    rw [max_eq_left h1, max_eq_right (le_of_lt h2)] at hm1 hm2
    have hcase : B' = A ∨ B' = A + 1 := by omega
    rcases hcase with e | e
    · subst e
      omega
    · subst e
      have : (A + 1) * (A + 1) = A * A + 2 * A + 1 := by ring
      have hB : B = A := by omega
      have hA' : A' = 0 := by omega
      subst hB hA'
      omega
  · rw [pairNat_of_ge h1] at hs he
    rw [pairNat_of_ge h2] at hs
    rw [max_eq_left h1, max_eq_left h2] at hm1 hm2
    have hcase : A' = A ∨ A' = A + 1 := by omega
    rcases hcase with e | e
    · subst e
      have : B' = B + 1 := by omega
      omega
    · subst e
      have : (A + 1) * (A + 1) = A * A + 2 * A + 1 := by ring
      omega

theorem foldSign_small (a : Int) (h1 : -32768 ≤ a) (h2 : a ≤ 32767) :
    ((foldSign a : Nat) : Int) = (if a ≥ 0 then 2 * a else -2 * a - 1) ∧ foldSign a ≤ 65535 := by
  unfold foldSign wrapU32 wrapI32
  split_ifs with h <;> omega

theorem foldSign_parity (a : Int) (h1 : -32768 ≤ a) (h2 : a ≤ 32767) :
    (foldSign a % 2 = 0 ↔ a ≥ 0) := by
  have h := (foldSign_small a h1 h2).1
  split_ifs at h with h3 <;> omega

theorem foldSign_inj (a a' : Int) (h1 : -32768 ≤ a) (h2 : a ≤ 32767) (h1' : -32768 ≤ a')
    (h2' : a' ≤ 32767) (h : foldSign a = foldSign a') : a = a' := by
  have e := (foldSign_small a h1 h2).1
  have e' := (foldSign_small a' h1' h2').1
  rw [h] at e
  split_ifs at e e' <;> omega

theorem szudzik_small (A B : Nat) (hA : A ≤ 65535) (hB : B ≤ 65535) :
    szudzik A B = pairNat A B := by
  have h1 : A * A ≤ 65535 * 65535 := Nat.mul_le_mul hA hA
  have h2 : B * B ≤ 65535 * 65535 := Nat.mul_le_mul hB hB
  unfold szudzik pairNat
  split_ifs with h
  · apply Nat.mod_eq_of_lt; omega
  · apply Nat.mod_eq_of_lt; omega

theorem pairNat_small (A B : Nat) (hA : A ≤ 65535) (hB : B ≤ 65535) :
    pairNat A B ≤ 4294967295 := by
  have h1 : A * A ≤ 65535 * 65535 := Nat.mul_le_mul hA hA
  have h2 : B * B ≤ 65535 * 65535 := Nat.mul_le_mul hB hB
  unfold pairNat
  split_ifs with h <;> omega

theorem getHash_small (a b : Int) (ha1 : -32768 ≤ a) (ha2 : a ≤ 32767) (hb1 : -32768 ≤ b)
    (hb2 : b ≤ 32767) :
    getHash a b =
      if (a < 0 ∧ b < 0) ∨ (a ≥ 0 ∧ b ≥ 0) then ((pairNat (foldSign a) (foldSign b) / 2 : Nat) : Int)
      else -((pairNat (foldSign a) (foldSign b) / 2 : Nat) : Int) - 1 := by
  have hA := (foldSign_small a ha1 ha2).2
  have hB := (foldSign_small b hb1 hb2).2
  have hp := pairNat_small _ _ hA hB
  unfold getHash
  simp only [szudzik_small _ _ hA hB, Int.ofNat_eq_coe]
  unfold wrapI32
  split_ifs <;> omega

theorem pairNat_half_inj (A B A' B' : Nat)
    (hcl : (A % 2 = B % 2) ↔ (A' % 2 = B' % 2))
    (h : pairNat A B / 2 = pairNat A' B' / 2) : pairNat A B = pairNat A' B' := by
  by_contra hne
  rcases Nat.lt_or_ge (pairNat A B) (pairNat A' B') with hlt | hge
  · exact pairNat_half_step A B A' B' hcl (by omega) (by omega)
  · exact pairNat_half_step A' B' A B hcl.symm (by omega) (by omega)

/-- The two-argument pairing is injective where its 32-bit arithmetic does not wrap. -/
theorem getHash_inj_small (a b a' b' : Int)
    (ha1 : -32768 ≤ a) (ha2 : a ≤ 32767) (hb1 : -32768 ≤ b) (hb2 : b ≤ 32767)
    (ha1' : -32768 ≤ a') (ha2' : a' ≤ 32767) (hb1' : -32768 ≤ b') (hb2' : b' ≤ 32767)
    (h : getHash a b = getHash a' b') : a = a' ∧ b = b' := by
  rw [getHash_small a b ha1 ha2 hb1 hb2, getHash_small a' b' ha1' ha2' hb1' hb2'] at h
  have pa := foldSign_parity a ha1 ha2
  have pb := foldSign_parity b hb1 hb2
  have pa' := foldSign_parity a' ha1' ha2'
  have pb' := foldSign_parity b' hb1' hb2'
  have key : pairNat (foldSign a) (foldSign b) = pairNat (foldSign a') (foldSign b') := by
    apply pairNat_half_inj
    · split_ifs at h <;> omega
    · split_ifs at h <;> omega
  obtain ⟨e1, e2⟩ := pairNat_inj _ _ _ _ key
  exact ⟨foldSign_inj a a' ha1 ha2 ha1' ha2' e1, foldSign_inj b b' hb1 hb2 hb1' hb2' e2⟩

theorem getHash_range (y z : Int) (hy1 : -127 ≤ y) (hy2 : y ≤ 127) (hz1 : -127 ≤ z)
    (hz2 : z ≤ 127) : -32768 ≤ getHash y z ∧ getHash y z ≤ 32767 := by
  rw [getHash_small y z (by omega) (by omega) (by omega) (by omega)]
  have hA := (foldSign_small y (by omega) (by omega)).1
  have hB := (foldSign_small z (by omega) (by omega)).1
  have hA2 : foldSign y ≤ 254 := by split_ifs at hA <;> omega
  have hB2 : foldSign z ≤ 254 := by split_ifs at hB <;> omega
  have h1 : foldSign y * foldSign y ≤ 254 * 254 := Nat.mul_le_mul hA2 hA2
  have h2 : foldSign z * foldSign z ≤ 254 * 254 := Nat.mul_le_mul hB2 hB2
  have hp : pairNat (foldSign y) (foldSign z) ≤ 65024 := by
    unfold pairNat
    split_ifs <;> omega
  split_ifs <;> omega

theorem toSizeT_inj (i j : Int) (hi1 : -2147483648 ≤ i) (hi2 : i ≤ 2147483647)
    (hj1 : -2147483648 ≤ j) (hj2 : j ≤ 2147483647) (h : toSizeT i = toSizeT j) : i = j := by
  unfold toSizeT at h
  omega

theorem getHash_int_range (a b : Int) :
    -2147483648 ≤ getHash a b ∧ getHash a b ≤ 2147483647 := by
  simp only [getHash, wrapI32]
  split_ifs <;> omega

/-- C3. The three-coordinate spatial hash `getHash(x, getHash(y, z))` does not collide
on integer triples with coordinates of absolute value at most 127. -/
theorem getHash3_injective (x y z x' y' z' : Int)
    (hx : |x| ≤ 127) (hy : |y| ≤ 127) (hz : |z| ≤ 127)
    (hx' : |x'| ≤ 127) (hy' : |y'| ≤ 127) (hz' : |z'| ≤ 127)
    (h : getHash3 x y z = getHash3 x' y' z') : x = x' ∧ y = y' ∧ z = z' := by
  rw [abs_le] at hx hy hz hx' hy' hz'
  have r := getHash_range y z hy.1 hy.2 hz.1 hz.2
  have r' := getHash_range y' z' hy'.1 hy'.2 hz'.1 hz'.2
  have h0 : getHash x (getHash y z) = getHash x' (getHash y' z') :=
    toSizeT_inj _ _ (getHash_int_range _ _).1 (getHash_int_range _ _).2
      (getHash_int_range _ _).1 (getHash_int_range _ _).2 h
  obtain ⟨e1, e2⟩ := getHash_inj_small x (getHash y z) x' (getHash y' z')
    (by omega) (by omega) r.1 r.2 (by omega) (by omega) r'.1 r'.2 h0
  obtain ⟨e3, e4⟩ := getHash_inj_small y z y' z'
    (by omega) (by omega) (by omega) (by omega) (by omega) (by omega) (by omega) (by omega) e2
  exact ⟨e1, e3, e4⟩

theorem getHash3_injective_witness :
    (|(3 : Int)| ≤ 127 ∧ |(-5 : Int)| ≤ 127 ∧ |(127 : Int)| ≤ 127 ∧
      getHash3 3 (-5) 127 = getHash3 3 (-5) 127) ∧
    ((3 : Int) = 3 ∧ (-5 : Int) = -5 ∧ (127 : Int) = 127) :=
  ⟨⟨by decide, by decide, by decide, rfl⟩,
    getHash3_injective 3 (-5) 127 3 (-5) 127 (by decide) (by decide) (by decide)
      (by decide) (by decide) (by decide) rfl⟩

end Vector3D

/-- C2. For agents `a` and `b` with different ids, `make_ordered_cell_pair(a, b)` and
`make_ordered_cell_pair(b, a)` are the same pair, whose first component has the smaller
id. -/
theorem make_ordered_cell_pair_symmetric {T : Type} (idOf : T → Nat) (a b : T)
    (h : idOf a ≠ idOf b) :
    make_ordered_cell_pair idOf a b = make_ordered_cell_pair idOf b a ∧
    idOf (make_ordered_cell_pair idOf a b).first <
      idOf (make_ordered_cell_pair idOf a b).second := by
  unfold make_ordered_cell_pair
  rcases Nat.lt_or_gt_of_ne h with hlt | hgt
  · have : ¬ idOf b < idOf a := by omega
    simp [hlt, this]
  · have : ¬ idOf a < idOf b := by omega
    simp [hgt, this]

theorem make_ordered_cell_pair_symmetric_witness :
    ((fun p : Nat × Nat => p.2) (10, 7) ≠ (fun p : Nat × Nat => p.2) (20, 4)) ∧
    make_ordered_cell_pair (fun p : Nat × Nat => p.2) (10, 7) (20, 4) =
      { first := (20, 4), second := (10, 7) } ∧
    make_ordered_cell_pair (fun p : Nat × Nat => p.2) (20, 4) (10, 7) =
      { first := (20, 4), second := (10, 7) } :=
  ⟨by decide,
   by decide,
   (make_ordered_cell_pair_symmetric (fun p : Nat × Nat => p.2) (10, 7) (20, 4)
      (by decide)).1 ▸ (by decide)⟩

namespace BasicWorld

variable {σ V R γ μ : Type}

theorem disconnect_dead (c : CellPtr) (con : CellCellConnectionContainer γ) (h : Heap σ)
    (p : CellPtr) : ((disconnectAndDeleteAllConnections c con h).2 p).dead = (h p).dead := by
  unfold disconnectAndDeleteAllConnections
  by_cases hp : p = c <;> simp [hp]

theorem disconnect_id (c : CellPtr) (con : CellCellConnectionContainer γ) (h : Heap σ)
    (p : CellPtr) : ((disconnectAndDeleteAllConnections c con h).2 p).id = (h p).id := by
  unfold disconnectAndDeleteAllConnections
  by_cases hp : p = c <;> simp [hp]

theorem destroyLoop_heap (cells : List CellPtr) (con : CellCellConnectionContainer γ)
    (h : Heap σ) (p : CellPtr) :
    ((destroyLoop cells con h).2.2 p).dead = (h p).dead ∧
    ((destroyLoop cells con h).2.2 p).id = (h p).id := by
  induction cells generalizing con h with
  | nil => simp [destroyLoop]
  | cons c rest ih =>
    unfold destroyLoop
    by_cases hd : (h c).dead = true
    · simp only [hd, if_true]
      have := ih (disconnectAndDeleteAllConnections c con h).1
        (disconnectAndDeleteAllConnections c con h).2
      rw [disconnect_dead, disconnect_id] at this
      exact this
    · simp only [hd]
      exact ih con h

theorem destroyLoop_cells (cells : List CellPtr) (con : CellCellConnectionContainer γ)
    (h : Heap σ) :
    (destroyLoop cells con h).1 = cells.filter (fun c => !(h c).dead) := by
  induction cells generalizing con h with
  | nil => simp [destroyLoop]
  | cons c rest ih =>
    unfold destroyLoop
    by_cases hd : (h c).dead = true
    · simp only [hd, if_true]
      rw [ih, List.filter_cons_of_neg (by simp [hd])]
      apply List.filter_congr
      intro x _
      rw [disconnect_dead]
    · simp only [hd]
      rw [List.filter_cons_of_pos (by simpa using hd), ih]
      simp

/-- C6. `destroyDeadCells` leaves in the agent collection exactly the agents that were
not flagged dead, in their original relative order: every agent left is live, before and
after the call, and every live agent is still there. -/
theorem destroyDeadCells_keeps_exactly_the_living (w : BasicWorld σ V R γ μ) :
    (destroyDeadCells w).cells = w.cells.filter (fun c => !(w.heap c).dead) ∧
    (∀ c ∈ (destroyDeadCells w).cells, ((destroyDeadCells w).heap c).dead = false) ∧
    (∀ c ∈ w.cells, ((w.heap c).dead = true → c ∉ (destroyDeadCells w).cells) ∧
      ((w.heap c).dead = false → c ∈ (destroyDeadCells w).cells)) ∧
    (destroyDeadCells w).cells.Sublist w.cells := by
  have hc : (destroyDeadCells w).cells = w.cells.filter (fun c => !(w.heap c).dead) :=
    destroyLoop_cells w.cells w.cellCellConnections w.heap
  refine ⟨hc, ?_, ?_, ?_⟩
  · intro c hmem
    rw [hc, List.mem_filter] at hmem
    have hh : ((destroyDeadCells w).heap c).dead = (w.heap c).dead :=
      (destroyLoop_heap w.cells w.cellCellConnections w.heap c).1
    rw [hh]
    simpa using hmem.2
  · intro c hmem
    rw [hc]
    constructor
    · intro hd hin
      rw [List.mem_filter] at hin
      simp [hd] at hin
    · intro hd
      rw [List.mem_filter]
      exact ⟨hmem, by simp [hd]⟩
  · rw [hc]
    exact List.filter_sublist _

theorem destroyLoop_connections (cells : List CellPtr) (con : CellCellConnectionContainer γ)
    (h : Heap σ) (e : ordered_pair CellPtr × γ)
    (he : e ∈ (destroyLoop cells con h).2.1) :
    e ∈ con ∧ ∀ c ∈ cells, (h c).dead = true → e.1.first ≠ c ∧ e.1.second ≠ c := by
  induction cells generalizing con h with
  | nil => simpa [destroyLoop] using he
  | cons c rest ih =>
    unfold destroyLoop at he
    by_cases hd : (h c).dead = true
    · simp only [hd, if_true] at he
      obtain ⟨h1, h2⟩ := ih _ _ he
      have h1f : e ∈ con ∧ (e.1.first ≠ c ∧ e.1.second ≠ c) := by
        simpa [disconnectAndDeleteAllConnections, List.mem_filter] using h1
      refine ⟨h1f.1, ?_⟩
      intro x hx hxd
      rcases List.mem_cons.mp hx with e1 | e1
      · subst e1; exact h1f.2
      · exact h2 x e1 (by rw [disconnect_dead]; exact hxd)
    · simp only [hd] at he
      obtain ⟨h1, h2⟩ := ih _ _ he
      refine ⟨h1, ?_⟩
      intro x hx hxd
      rcases List.mem_cons.mp hx with e1 | e1
      · subst e1; exact absurd hxd hd
      · exact h2 x e1 hxd

/-- The agent-agent half of the connection invariant is kept by `destroyDeadCells`. -/
theorem destroyDeadCells_cellCell_refs (w : BasicWorld σ V R γ μ)
    (hinv : ∀ p ∈ cellCellRefs w.cellCellConnections, p ∈ w.cells) :
    ∀ p ∈ cellCellRefs (destroyDeadCells w).cellCellConnections,
      p ∈ (destroyDeadCells w).cells := by
  intro p hp
  have hc : (destroyDeadCells w).cells = w.cells.filter (fun c => !(w.heap c).dead) :=
    destroyLoop_cells w.cells w.cellCellConnections w.heap
  rw [hc, List.mem_filter]
  unfold cellCellRefs at hp
  rw [List.mem_flatMap] at hp
  obtain ⟨e, he, hpe⟩ := hp
  obtain ⟨h1, h2⟩ := destroyLoop_connections w.cells w.cellCellConnections w.heap e he
  have hpin : p ∈ w.cells := by
    apply hinv
    unfold cellCellRefs
    rw [List.mem_flatMap]
    exact ⟨e, h1, hpe⟩
  refine ⟨hpin, ?_⟩
  by_contra hdead
  have hd : (w.heap p).dead = true := by simpa using hdead
  have := h2 p hpin hd
  simp at hpe
  rcases hpe with e1 | e1
  · exact this.1 e1.symm
  · exact this.2 e1.symm

/-- C5, at the failing input. In the world `deadCellOnModel` every agent in a connection
is in the agent collection; after `destroyDeadCells` the agent at address `1` has left
the collection and `cellModelConnections`, unchanged, still references it. -/
theorem destroyDeadCells_leaves_model_connection :
    ConnectionsPresent deadCellOnModel ∧
    (destroyDeadCells deadCellOnModel).cells = [] ∧
    (destroyDeadCells deadCellOnModel).cellModelConnections = [("floor", [(1, [()])])] ∧
    1 ∈ cellModelRefs (destroyDeadCells deadCellOnModel).cellModelConnections ∧
    ¬ ConnectionsPresent (destroyDeadCells deadCellOnModel) := by
  refine ⟨?_, by decide, by decide, by decide, ?_⟩
  · constructor
    · intro p hp; simp [deadCellOnModel, cellCellRefs, init] at hp
    · intro p hp
      simp [deadCellOnModel, cellModelRefs] at hp
      simp [deadCellOnModel, hp]
  · intro hcp
    have h1 := hcp.2 1 (by decide)
    have h2 : (destroyDeadCells deadCellOnModel).cells = [] := by decide
    rw [h2] at h1
    simp at h1

end BasicWorld

namespace Grid

variable {O : Type}

end Grid

namespace BasicWorld

variable {σ V R γ μ : Type}

theorem removeModel_models [Inhabited V] (ct : CellType σ V R γ μ)
    (cover : V → V → V → List GridCell) (w : BasicWorld σ V R γ μ) (name : String) :
    (removeModel ct cover w name).models = w.models.filter (fun m => m.1 != name) := by
  unfold removeModel
  simp only
  split_ifs with h
  · rfl
  · symm
    rw [List.filter_eq_self]
    intro m hm
    simp only [List.any_eq_true, not_exists, not_and] at h
    have := h m hm
    simpa using this

theorem lookup_filter_ne {β : Type} (l : List (String × β)) (name : String) :
    (l.filter (fun e => e.1 != name)).lookup name = none := by
  rw [List.lookup_eq_none_iff]
  intro p hp
  have := (List.mem_filter.mp hp).2
  simp only [bne_iff_ne, ne_eq] at this ⊢
  exact fun e => this e.symm

theorem located_push {O : Type} (um : List (GridCell × List O)) (c : GridCell) (o : O) :
    (Grid.mk (Grid.push um c o)).located.Perm ((Grid.mk um).located ++ [(c, o)]) := by
  induction um with
  | nil => simp [Grid.push, Grid.located]
  | cons b rest ih =>
    obtain ⟨c1, os⟩ := b
    unfold Grid.push
    by_cases h : c1 = c
    · subst h
      simp only [if_true, Grid.located, List.flatMap_cons, List.map_append, List.map_cons,
        List.map_nil, List.append_assoc]
      exact List.Perm.append_left _ List.perm_append_comm
    · simp only [if_neg h, Grid.located, List.flatMap_cons, List.append_assoc]
      exact List.Perm.append_left _ ih

theorem located_insert {O : Type} (g : Grid O) (o : O) (cells : List GridCell) :
    (g.insert o cells).located.Perm (g.located ++ cells.map (fun c => (c, o))) := by
  induction cells generalizing g with
  | nil => simp [Grid.insert]
  | cons c rest ih =>
    have h1 := ih (Grid.mk (Grid.push g.um c o))
    have h2 := located_push g.um c o
    have e : g.insert o (c :: rest) = (Grid.mk (Grid.push g.um c o)).insert o rest := rfl
    rw [e]
    refine h1.trans ?_
    refine (List.Perm.append_right _ h2).trans ?_
    simp

theorem faceCover_eq [Inhabited V] (cover : V → V → V → List GridCell) (m : Model V) (i : Nat)
    (hi : i < m.faces.length) :
    faceCover cover m i =
      cover (m.vertices.getD (m.faces.getD i { i0 := 0, i1 := 0, i2 := 0 }).i0 default)
        (m.vertices.getD (m.faces.getD i { i0 := 0, i1 := 0, i2 := 0 }).i1 default)
        (m.vertices.getD (m.faces.getD i { i0 := 0, i1 := 0, i2 := 0 }).i2 default) := by
  have e : m.faces.getD i { i0 := 0, i1 := 0, i2 := 0 } = m.faces[i] := by
    rw [List.getD_eq_getElem?_getD, List.getElem?_eq_getElem hi]
    rfl
  unfold faceCover
  rw [e, List.getElem?_eq_getElem hi]

theorem located_insertFaces [Inhabited V] (cover : V → V → V → List GridCell) (key : String)
    (m : Model V) (l : List Nat) (hl : ∀ i ∈ l, i < m.faces.length)
    (g : Grid (String × Nat)) :
    (l.foldl
      (fun g i =>
        let f := m.faces.getD i { i0 := 0, i1 := 0, i2 := 0 }
        g.insert (key, i)
          (cover (m.vertices.getD f.i0 default) (m.vertices.getD f.i1 default)
            (m.vertices.getD f.i2 default))) g).located.Perm
      (g.located ++ l.flatMap (fun i => (faceCover cover m i).map (fun c => (c, (key, i))))) := by
  induction l generalizing g with
  | nil => simp
  | cons i rest ih =>
    rw [List.foldl_cons]
    refine (ih (fun j hj => hl j (List.mem_cons_of_mem _ hj)) _).trans ?_
    simp only [List.flatMap_cons]
    rw [← List.append_assoc]
    refine List.Perm.append_right _ ?_
    rw [faceCover_eq cover m i (hl i (List.mem_cons_self _ _))]
    exact located_insert _ _ _

theorem located_insertInGrid [Inhabited V] (cover : V → V → V → List GridCell) (key : String)
    (m : Model V) (g : Grid (String × Nat)) :
    (insertInGrid cover key m g).located.Perm
      (g.located ++ (List.range m.faces.length).flatMap
        (fun i => (faceCover cover m i).map (fun c => (c, (key, i))))) :=
  located_insertFaces cover key m _ (fun _ hi => List.mem_range.mp hi) g

theorem located_rebuild [Inhabited V] (cover : V → V → V → List GridCell)
    (models : List (String × Model V)) :
    (rebuildModelGrid cover models).located.Perm (expectedEntries cover models) := by
  have gen : ∀ (l : List (String × Model V)) (g : Grid (String × Nat)),
      (l.foldl (fun g m => insertInGrid cover m.1 m.2 g) g).located.Perm
        (g.located ++ expectedEntries cover l) := by
    intro l
    induction l with
    | nil => intro g; simp [expectedEntries]
    | cons m rest ih =>
      intro g
      rw [List.foldl_cons]
      refine (ih _).trans ?_
      simp only [expectedEntries, List.flatMap_cons]
      rw [← List.append_assoc]
      exact List.Perm.append_right _ (located_insertInGrid cover m.1 m.2 g)
  have h := gen models Grid.clear
  simpa [rebuildModelGrid, Grid.clear, Grid.located] using h

theorem mem_expectedEntries [Inhabited V] (cover : V → V → V → List GridCell)
    (models : List (String × Model V)) (c : GridCell) (key : String) (i : Nat) :
    (c, (key, i)) ∈ expectedEntries cover models ↔
      ∃ m, (key, m) ∈ models ∧ i < m.faces.length ∧ c ∈ faceCover cover m i := by
  simp only [expectedEntries, List.mem_flatMap, List.mem_range, List.mem_map, Prod.mk.injEq]
  constructor
  · rintro ⟨⟨k, m⟩, hm, j, hj, c1, hc1, rfl, rfl, rfl⟩
    exact ⟨m, hm, hj, hc1⟩
  · rintro ⟨m, hm, hi, hc⟩
    exact ⟨(key, m), hm, i, hi, c, hc, rfl, rfl, rfl⟩

theorem filter_of_lookup_none {β : Type} (l : List (String × β)) (name : String)
    (h : l.lookup name = none) : l.filter (fun e => e.1 != name) = l := by
  induction l with
  | nil => rfl
  | cons e rest ih =>
    obtain ⟨k, v⟩ := e
    rw [List.lookup_cons] at h
    by_cases hk : name = k
    · subst hk; simp at h
    · have hb : (name == k) = false := by simpa using hk
      rw [hb] at h
      have hk2 : (k != name) = true := by simpa using fun e => hk e.symm
      rw [List.filter_cons_of_pos (by simpa using hk2), ih h]

/-- C7. After `removeModel(name)`, in every world state: the model registry is the
former one without the entry for `name` and has no entry for `name`; so is
`cellModelConnections`; and the model grid holds exactly the entries of the faces of the
models still registered: its (grid cell, key) entries are, up to the order in which the
buckets list them, one entry `(c, (model, i))` for every remaining model, every face
index `i` of it and every occurrence of a grid cell `c` in the cells the face overlaps.
So a pair is in the grid iff its model is registered under another name than `name` and
its face overlaps the cell, and no key of the grid refers to the removed model. -/
theorem removeModel_removes_everything [Inhabited V] (ct : CellType σ V R γ μ)
    (cover : V → V → V → List GridCell) (w : BasicWorld σ V R γ μ) (name : String) :
    (removeModel ct cover w name).models.lookup name = none ∧
    (removeModel ct cover w name).models = w.models.filter (fun m => m.1 != name) ∧
    (removeModel ct cover w name).cellModelConnections.lookup name = none ∧
    (removeModel ct cover w name).cellModelConnections =
      w.cellModelConnections.filter (fun e => e.1 != name) ∧
    (removeModel ct cover w name).modelSpacePartition.located.Perm
      (expectedEntries cover (w.models.filter (fun m => m.1 != name))) ∧
    (∀ c key i, (c, (key, i)) ∈ (removeModel ct cover w name).modelSpacePartition.located ↔
      key ≠ name ∧ ∃ m, (key, m) ∈ w.models ∧ i < m.faces.length ∧ c ∈ faceCover cover m i) ∧
    (removeModel ct cover w name).modelSpacePartition.entries =
      (removeModel ct cover w name).modelSpacePartition.located.map Prod.snd ∧
    (∀ x ∈ (removeModel ct cover w name).modelSpacePartition.entries,
      x.1 ≠ name ∧
      ∃ m ∈ (removeModel ct cover w name).models, m.1 = x.1 ∧ x.2 < m.2.faces.length) := by
  have hm := removeModel_models ct cover w name
  have hg : (removeModel ct cover w name).modelSpacePartition =
      rebuildModelGrid cover (w.models.filter (fun m => m.1 != name)) := by
    rw [← hm]
    unfold removeModel
    simp only
  have hp := located_rebuild cover (w.models.filter (fun m => m.1 != name))
  rw [← hg] at hp
  have hent : (removeModel ct cover w name).modelSpacePartition.entries =
      (removeModel ct cover w name).modelSpacePartition.located.map Prod.snd := by
    simp [Grid.entries, Grid.located, List.map_flatMap, Function.comp_def]
  have hiff : ∀ c key i,
      (c, (key, i)) ∈ (removeModel ct cover w name).modelSpacePartition.located ↔
      key ≠ name ∧ ∃ m, (key, m) ∈ w.models ∧ i < m.faces.length ∧
        c ∈ faceCover cover m i := by
    intro c key i
    rw [hp.mem_iff, mem_expectedEntries]
    constructor
    · rintro ⟨m, hmem, hi, hc⟩
      rw [List.mem_filter] at hmem
      exact ⟨by simpa using hmem.2, m, hmem.1, hi, hc⟩
    · rintro ⟨hk, m, hmem, hi, hc⟩
      exact ⟨m, List.mem_filter.mpr ⟨hmem, by simpa using hk⟩, hi, hc⟩
  refine ⟨?_, hm, ?_, ?_, hp, hiff, hent, ?_⟩
  · rw [hm]; exact lookup_filter_ne _ _
  · unfold removeModel
    simp only
    cases hl : w.cellModelConnections.lookup name with
    | none => simpa using hl
    | some perCell => exact lookup_filter_ne _ _
  · unfold removeModel
    simp only
    cases hl : w.cellModelConnections.lookup name with
    | none => exact (filter_of_lookup_none _ _ hl).symm
    | some perCell => rfl
  · intro x hx
    rw [hent, List.mem_map] at hx
    obtain ⟨⟨c, key, i⟩, hmem, rfl⟩ := hx
    obtain ⟨hk, m, hmm, hi, _⟩ := (hiff c key i).mp hmem
    refine ⟨hk, (key, m), ?_, rfl, hi⟩
    rw [hm]
    exact List.mem_filter.mpr ⟨hmm, by simpa using hk⟩

theorem checkModels_spec (ms : List (String × Model V)) (b : Bool) :
    (checkModels ms b).1 = ms.map (fun m => (m.1, { m.2 with dirty := false })) ∧
    (checkModels ms b).2 = (b || ms.any (fun m => m.2.dirty)) := by
  induction ms generalizing b with
  | nil => simp [checkModels]
  | cons m rest ih =>
    obtain ⟨n, m⟩ := m
    simp only [checkModels, Model.changedSinceLastCheck, List.map_cons, List.any_cons]
    rw [(ih _).1, (ih _).2]
    refine ⟨rfl, ?_⟩
    rcases Bool.eq_false_or_eq_true m.dirty with hd | hd <;> cases b <;> simp [hd]

theorem updateModelGrid_models [Inhabited V] (cover : V → V → V → List GridCell)
    (w : BasicWorld σ V R γ μ) :
    (updateModelGrid cover w).models =
      w.models.map (fun m => (m.1, { m.2 with dirty := false })) := by
  unfold updateModelGrid
  simp only
  split_ifs <;> exact (checkModels_spec w.models false).1

/-- C10. With `changedSinceLastCheck` returning the dirty flag and clearing it, one call
of `updateModelGrid` clears the dirty flag of every registered model. Hence in any world
whose registry is the one that call left (no geometry change in between), the flag
`modelChange` computed by the next call is false, that call leaves the model grid and
the registry as they are, and a second call right after the first changes nothing. -/
theorem updateModelGrid_second_call_is_noop [Inhabited V] (cover : V → V → V → List GridCell)
    (w : BasicWorld σ V R γ μ) :
    (∀ m ∈ (updateModelGrid cover w).models, m.2.dirty = false) ∧
    (∀ w2 : BasicWorld σ V R γ μ, w2.models = (updateModelGrid cover w).models →
      (checkModels w2.models false).2 = false ∧
      (updateModelGrid cover w2).modelSpacePartition = w2.modelSpacePartition ∧
      updateModelGrid cover w2 = w2) ∧
    updateModelGrid cover (updateModelGrid cover w) = updateModelGrid cover w := by
  have hclean : ∀ m ∈ (updateModelGrid cover w).models, m.2.dirty = false := by
    intro m hm
    rw [updateModelGrid_models, List.mem_map] at hm
    obtain ⟨m0, _, e⟩ := hm
    rw [← e]
  have hw2 : ∀ w2 : BasicWorld σ V R γ μ, w2.models = (updateModelGrid cover w).models →
      (checkModels w2.models false).2 = false ∧
      (updateModelGrid cover w2).modelSpacePartition = w2.modelSpacePartition ∧
      updateModelGrid cover w2 = w2 := by
    intro w2 hw2
    have hflag : (checkModels w2.models false).2 = false := by
      rw [(checkModels_spec w2.models false).2]
      simp only [Bool.false_or]
      rw [Bool.eq_false_iff]
      intro hany
      rw [List.any_eq_true] at hany
      obtain ⟨m, hm, hd⟩ := hany
      rw [hw2] at hm
      rw [hclean m hm] at hd
      exact absurd hd (by simp)
    have hmodels : (checkModels w2.models false).1 = w2.models := by
      rw [(checkModels_spec w2.models false).1]
      conv_rhs => rw [← List.map_id w2.models]
      apply List.map_congr_left
      intro m hm
      rw [hw2] at hm
      have hd := hclean m hm
      obtain ⟨n, m⟩ := m
      obtain ⟨a, b, c, d⟩ := m
      simp only at hd
      subst hd
      rfl
    have heq : updateModelGrid cover w2 = w2 := by
      unfold updateModelGrid
      simp only [hflag, hmodels]
      rfl
    exact ⟨hflag, by rw [heq], heq⟩
  exact ⟨hclean, hw2, (hw2 _ rfl).2.2⟩

end BasicWorld

namespace BasicWorld

variable {σ V R γ μ : Type}

theorem addCell_nonnull (w : BasicWorld σ V R γ μ) (c : CellPtr) (hc : c ≠ 0) :
    (addCell w c).cells = w.cells ++ [c] ∧
    (addCell w c).nbAddedCells = w.nbAddedCells + 1 ∧
    (addCell w c).frame = w.frame ∧
    ((addCell w c).heap c).id = w.nbAddedCells ∧
    (∀ p, p ≠ c → (addCell w c).heap p = w.heap p) ∧
    (∀ p, ((addCell w c).heap p).dead = (w.heap p).dead) := by
  unfold addCell
  rw [if_pos hc]
  refine ⟨rfl, rfl, rfl, by simp [Heap.set], ?_, ?_⟩
  · intro p hp; simp [Heap.set, hp]
  · intro p
    by_cases hp : p = c
    · subst hp; simp [Heap.set]
    · simp [Heap.set, hp]

theorem foldl_addCell (l : List CellPtr) (w : BasicWorld σ V R γ μ) (h0 : 0 ∉ l) :
    (l.foldl addCell w).cells = w.cells ++ l ∧
    (l.foldl addCell w).nbAddedCells = w.nbAddedCells + l.length ∧
    (l.foldl addCell w).frame = w.frame ∧
    (∀ p, ((l.foldl addCell w).heap p).dead = (w.heap p).dead) := by
  induction l generalizing w with
  | nil => simp
  | cons c rest ih =>
    have hc : c ≠ 0 := fun e => h0 (e ▸ List.mem_cons_self _ _)
    have hr : 0 ∉ rest := fun e => h0 (List.mem_cons_of_mem _ e)
    obtain ⟨a1, a2, a3, _, _, a6⟩ := addCell_nonnull w c hc
    obtain ⟨b1, b2, b3, b4⟩ := ih (addCell w c) hr
    rw [List.foldl_cons]
    refine ⟨by rw [b1, a1]; simp, by rw [b2, a2]; simp; omega, by rw [b3, a3], ?_⟩
    intro p; rw [b4, a6]

/-- The first loop of `updateBehaviors`, continued from a state `s`: the memory is that
of the calls of the hook on the cells, one after the other, and `newCells` gains their
non-null results. -/
theorem behaviorLoop_from (f : R → CellPtr → Heap σ → Heap σ × CellPtr) (dt : R)
    (l : List CellPtr) (s : BehaviorLoop σ) :
    l.foldl
      (fun s c =>
        let r := f dt c s.heap
        { heap := r.1
          newCells := if r.2 ≠ 0 then s.newCells ++ [r.2] else s.newCells })
      s =
    { heap := hookedHeap f dt l s.heap
      newCells := s.newCells ++ (hookResults f dt l s.heap).filter (fun c => decide (c ≠ 0)) } := by
  induction l generalizing s with
  | nil => simp [hookedHeap, hookResults]
  | cons c rest ih =>
    rw [List.foldl_cons, ih]
    by_cases hz : (f dt c s.heap).2 = 0
    · simp [hookedHeap, hookResults, hz]
    · simp [hookedHeap, hookResults, hz]

theorem behaviorLoop_eq (f : R → CellPtr → Heap σ → Heap σ × CellPtr) (dt : R)
    (l : List CellPtr) (h : Heap σ) :
    behaviorLoop f dt l h =
      { heap := hookedHeap f dt l h
        newCells := (hookResults f dt l h).filter (fun c => decide (c ≠ 0)) } := by
  unfold behaviorLoop
  rw [behaviorLoop_from]
  simp

theorem behaviorLoop_nonnull (f : R → CellPtr → Heap σ → Heap σ × CellPtr) (dt : R)
    (l : List CellPtr) (h : Heap σ) : 0 ∉ (behaviorLoop f dt l h).newCells := by
  rw [behaviorLoop_eq, List.mem_filter]
  simp

theorem updateBehaviors_some (ct : CellType σ V R γ μ) (w : BasicWorld σ V R γ μ)
    (f : R → CellPtr → Heap σ → Heap σ × CellPtr) (hf : ct.updateBehavior = some f) :
    updateBehaviors ct w =
      (behaviorLoop f w.dt w.cells w.heap).newCells.foldl addCell
        { w with heap := (behaviorLoop f w.dt w.cells w.heap).heap } ∧
    spawned ct w = (behaviorLoop f w.dt w.cells w.heap).newCells := by
  simp [updateBehaviors, spawned, hf]

theorem updateBehaviors_none (ct : CellType σ V R γ μ) (w : BasicWorld σ V R γ μ)
    (hf : ct.updateBehavior = none) : updateBehaviors ct w = w ∧ spawned ct w = [] := by
  simp [updateBehaviors, spawned, hf]

theorem updateBehaviors_cells (ct : CellType σ V R γ μ) (w : BasicWorld σ V R γ μ) :
    (updateBehaviors ct w).cells = w.cells ++ spawned ct w ∧
    (updateBehaviors ct w).nbAddedCells = w.nbAddedCells + (spawned ct w).length ∧
    (updateBehaviors ct w).frame = w.frame := by
  cases hf : ct.updateBehavior with
  | none => rw [(updateBehaviors_none ct w hf).1, (updateBehaviors_none ct w hf).2]; simp
  | some f =>
    rw [(updateBehaviors_some ct w f hf).1, (updateBehaviors_some ct w f hf).2]
    obtain ⟨h1, h2, h3, _⟩ := foldl_addCell (behaviorLoop f w.dt w.cells w.heap).newCells
      { w with heap := (behaviorLoop f w.dt w.cells w.heap).heap }
      (behaviorLoop_nonnull _ _ _ _)
    exact ⟨h1, h2, h3⟩

/-- What the registrations of `l` do to the memory: nothing but the `id` of the cells of
`l`. -/
theorem foldl_addCell_heap (l : List CellPtr) (w : BasicWorld σ V R γ μ) (p : CellPtr) :
    ((l.foldl addCell w).heap p).st = (w.heap p).st ∧
    ((l.foldl addCell w).heap p).dead = (w.heap p).dead ∧
    ((l.foldl addCell w).heap p).connectedCells = (w.heap p).connectedCells ∧
    (p ∉ l → (l.foldl addCell w).heap p = w.heap p) := by
  induction l generalizing w with
  | nil => simp
  | cons c rest ih =>
    rw [List.foldl_cons]
    obtain ⟨i1, i2, i3, i4⟩ := ih (addCell w c)
    have hstep : ((addCell w c).heap p).st = (w.heap p).st ∧
        ((addCell w c).heap p).dead = (w.heap p).dead ∧
        ((addCell w c).heap p).connectedCells = (w.heap p).connectedCells ∧
        (p ≠ c → (addCell w c).heap p = w.heap p) := by
      unfold addCell
      by_cases hc : c ≠ 0
      · rw [if_pos hc]
        by_cases hp : p = c
        · subst hp; simp [Heap.set]
        · simp [Heap.set, hp]
      · rw [if_neg hc]; simp
    refine ⟨i1.trans hstep.1, i2.trans hstep.2.1, i3.trans hstep.2.2.1, ?_⟩
    intro hp
    rw [List.mem_cons, not_or] at hp
    rw [i4 hp.2, hstep.2.2.2 hp.1]

theorem hookResults_length (f : R → CellPtr → Heap σ → Heap σ × CellPtr) (dt : R)
    (l : List CellPtr) (h : Heap σ) : (hookResults f dt l h).length = l.length := by
  induction l generalizing h with
  | nil => rfl
  | cons c rest ih => simp [hookResults, ih]

theorem hookedHeap_append (f : R → CellPtr → Heap σ → Heap σ × CellPtr) (dt : R)
    (l1 l2 : List CellPtr) (h : Heap σ) :
    hookedHeap f dt (l1 ++ l2) h = hookedHeap f dt l2 (hookedHeap f dt l1 h) := by
  induction l1 generalizing h with
  | nil => rfl
  | cons c rest ih => simp [hookedHeap, ih]

theorem hookResults_append (f : R → CellPtr → Heap σ → Heap σ × CellPtr) (dt : R)
    (l1 l2 : List CellPtr) (h : Heap σ) :
    hookResults f dt (l1 ++ l2) h =
      hookResults f dt l1 h ++ hookResults f dt l2 (hookedHeap f dt l1 h) := by
  induction l1 generalizing h with
  | nil => rfl
  | cons c rest ih => simp [hookResults, hookedHeap, ih]

/-- The call number `i` of the hook: on the agent `l[i]`, in the memory left by the
calls on the agents before it. -/
theorem hook_call (f : R → CellPtr → Heap σ → Heap σ × CellPtr) (dt : R)
    (l : List CellPtr) (h : Heap σ) (i : Nat) (hi : i < l.length) :
    (hookResults f dt l h)[i]? = some (f dt l[i] (hookedHeap f dt (l.take i) h)).2 ∧
    hookedHeap f dt (l.take (i + 1)) h = (f dt l[i] (hookedHeap f dt (l.take i) h)).1 := by
  have e : l = l.take i ++ l[i] :: l.drop (i + 1) := by
    rw [← List.drop_eq_getElem_cons hi, List.take_append_drop]
  have ht : (l.take i).length = i := by
    rw [List.length_take]; omega
  constructor
  · have hlen : (hookResults f dt (l.take i) h).length = i := by
      rw [hookResults_length, ht]
    conv_lhs => rw [e]
    rw [hookResults_append, List.getElem?_append_right (by omega), hlen]
    simp [hookResults]
  · have e1 : l.take (i + 1) = l.take i ++ [l[i]] := by
      rw [List.take_succ, List.getElem?_eq_getElem hi]
      rfl
    rw [e1, hookedHeap_append]
    rfl

/-- The hook of `countingCell` counts its calls in the state of the receiver. -/
theorem hookedHeap_counting (spawnOf : CellPtr → CellPtr) (l : List CellPtr) (h : Heap Nat)
    (p : CellPtr) :
    (hookedHeap
      (fun (_ : Unit) c h => (h.set c { h c with st := (h c).st + 1 }, spawnOf c)) () l h p).st =
      (h p).st + l.count p := by
  induction l generalizing h with
  | nil => simp [hookedHeap]
  | cons c rest ih =>
    simp only [hookedHeap]
    rw [ih]
    by_cases hp : c = p
    · subst hp; simp [Heap.set]; omega
    · have hp2 : ¬ p = c := fun e => hp e.symm
      simp [Heap.set, hp, hp2, List.count_cons]

/-- C9. In the behaviour phase, when the cell type has a behaviour hook `f`: the hook is
called once for each entry of the agent collection as it was when the phase began, in
the order of the collection, the call number `i` on the agent `cells[i]` in the memory
left by the calls before it; so it is called on no agent that is only spawned during the
phase. Afterwards the agent collection is the original one followed by the non-null
results in the order of the agents that returned them, a null result adding nothing; the
counter has grown by their number; and the memory is what the calls left, the
registered cells having received their ids. The calls are counted by `countingCell`,
whose hook increments the state of its receiver: after the phase the state of a cell has
grown by the number of its entries in the original collection, whatever was spawned. -/
theorem updateBehaviors_calls_each_agent_once (ct : CellType σ V R γ μ)
    (w : BasicWorld σ V R γ μ) (f : R → CellPtr → Heap σ → Heap σ × CellPtr)
    (hf : ct.updateBehavior = some f) :
    (hookResults f w.dt w.cells w.heap).length = w.cells.length ∧
    hookedHeap f w.dt (w.cells.take 0) w.heap = w.heap ∧
    (∀ i (hi : i < w.cells.length),
      (hookResults f w.dt w.cells w.heap)[i]? =
        some (f w.dt w.cells[i] (hookedHeap f w.dt (w.cells.take i) w.heap)).2 ∧
      hookedHeap f w.dt (w.cells.take (i + 1)) w.heap =
        (f w.dt w.cells[i] (hookedHeap f w.dt (w.cells.take i) w.heap)).1) ∧
    hookedHeap f w.dt (w.cells.take w.cells.length) w.heap =
      hookedHeap f w.dt w.cells w.heap ∧
    spawned ct w = (hookResults f w.dt w.cells w.heap).filter (fun c => decide (c ≠ 0)) ∧
    (updateBehaviors ct w).cells =
      w.cells ++ (hookResults f w.dt w.cells w.heap).filter (fun c => decide (c ≠ 0)) ∧
    (updateBehaviors ct w).nbAddedCells =
      w.nbAddedCells +
        ((hookResults f w.dt w.cells w.heap).filter (fun c => decide (c ≠ 0))).length ∧
    (∀ p,
      ((updateBehaviors ct w).heap p).st = (hookedHeap f w.dt w.cells w.heap p).st ∧
      ((updateBehaviors ct w).heap p).dead = (hookedHeap f w.dt w.cells w.heap p).dead ∧
      ((updateBehaviors ct w).heap p).connectedCells =
        (hookedHeap f w.dt w.cells w.heap p).connectedCells ∧
      (p ∉ spawned ct w →
        (updateBehaviors ct w).heap p = hookedHeap f w.dt w.cells w.heap p)) ∧
    (∀ (spawnOf : CellPtr → CellPtr) (wc : BasicWorld Nat Unit Unit Unit Unit) (p : CellPtr),
      ((updateBehaviors (countingCell spawnOf) wc).heap p).st =
        (wc.heap p).st + wc.cells.count p) := by
  have hsp : spawned ct w =
      (hookResults f w.dt w.cells w.heap).filter (fun c => decide (c ≠ 0)) := by
    rw [(updateBehaviors_some ct w f hf).2, behaviorLoop_eq]
  have hheap : ∀ (ct1 : CellType σ V R γ μ) (f1 : R → CellPtr → Heap σ → Heap σ × CellPtr),
      ct1.updateBehavior = some f1 → ∀ p,
      ((updateBehaviors ct1 w).heap p).st = (hookedHeap f1 w.dt w.cells w.heap p).st ∧
      ((updateBehaviors ct1 w).heap p).dead = (hookedHeap f1 w.dt w.cells w.heap p).dead ∧
      ((updateBehaviors ct1 w).heap p).connectedCells =
        (hookedHeap f1 w.dt w.cells w.heap p).connectedCells ∧
      (p ∉ spawned ct1 w →
        (updateBehaviors ct1 w).heap p = hookedHeap f1 w.dt w.cells w.heap p) := by
    intro ct1 f1 hf1 p
    rw [(updateBehaviors_some ct1 w f1 hf1).1, (updateBehaviors_some ct1 w f1 hf1).2]
    have h := foldl_addCell_heap (behaviorLoop f1 w.dt w.cells w.heap).newCells
      { w with heap := (behaviorLoop f1 w.dt w.cells w.heap).heap } p
    have e : (behaviorLoop f1 w.dt w.cells w.heap).heap = hookedHeap f1 w.dt w.cells w.heap := by
      rw [behaviorLoop_eq]
    rw [← e]
    exact h
  refine ⟨hookResults_length _ _ _ _, rfl, fun i hi => hook_call f w.dt w.cells w.heap i hi,
    by rw [List.take_length], hsp, ?_, ?_, hheap ct f hf, ?_⟩
  · rw [(updateBehaviors_cells ct w).1, hsp]
  · rw [(updateBehaviors_cells ct w).2.1, hsp]
  · intro spawnOf wc p
    have hc : (countingCell spawnOf).updateBehavior =
        some (fun (_ : Unit) c h => (h.set c { h c with st := (h c).st + 1 }, spawnOf c)) := rfl
    rw [(updateBehaviors_some _ wc _ hc).1]
    rw [(foldl_addCell_heap _ _ p).1, behaviorLoop_eq]
    exact hookedHeap_counting spawnOf wc.cells wc.heap p

theorem updateBehaviors_calls_each_agent_once_witness :
    demoCell.updateBehavior = some demoBehavior ∧
    demoPair.cells = [1, 2] ∧
    hookResults demoBehavior demoPair.dt demoPair.cells demoPair.heap = [3, 0] ∧
    (updateBehaviors demoCell demoPair).cells = [1, 2, 3] ∧
    (updateBehaviors demoCell demoPair).cells =
      demoPair.cells ++
        (hookResults demoBehavior demoPair.dt demoPair.cells demoPair.heap).filter
          (fun c => decide (c ≠ 0)) :=
  ⟨rfl, by decide, by decide, by decide,
    (updateBehaviors_calls_each_agent_once demoCell demoPair demoBehavior rfl).2.2.2.2.2.1⟩

theorem update_eq [Inhabited V] (ct : CellType σ V R γ μ)
    (cover : V → V → V → List GridCell) (w : BasicWorld σ V R γ μ) :
    update ct cover w =
      { destroyDeadCells (beforeReap ct cover w) with
        frame := wrapI32 ((destroyDeadCells (beforeReap ct cover w)).frame + 1) } := rfl

end BasicWorld

namespace Vector3D

/-- C13. Over the reals, `rayCast(o, n, p, r)` is `0` exactly when the ray is parallel to
the plane (`n.r = 0`) or its origin lies on the plane (`n.(o - p) = 0`). -/
theorem rayCast_eq_zero_iff (o n p r : Vector3D ℝ) :
    rayCast o n p r = 0 ↔ (n.dot r = 0 ∨ n.dot (o.sub p) = 0) := by
  unfold rayCast
  simp only
  by_cases h : n.dot r = 0
  · simp [h]
  · rw [if_neg h, div_eq_zero_iff]
    tauto

/-- C14. Over the reals, when `n.r` is not `0`, the value `l = rayCast(o, n, p, r)` puts
`p + l * r` on the plane of normal `n` through `o`. -/
theorem rayCast_hits_plane (o n p r : Vector3D ℝ) (h : n.dot r ≠ 0) :
    n.dot ((p.add (scalarMul (rayCast o n p r) r)).sub o) = 0 := by
  unfold rayCast
  simp only
  rw [if_neg h]
  simp only [dot, add, sub, scalarMul] at h ⊢
  field_simp
  ring

theorem rayCast_hits_plane_witness :
    (Vector3D.mk (0 : ℝ) 0 1).dot (Vector3D.mk 0 0 (-2)) ≠ 0 ∧
    (Vector3D.mk (0 : ℝ) 0 1).dot
      (((Vector3D.mk (1 : ℝ) 1 4).add
        (scalarMul (rayCast (Vector3D.mk 0 0 0) (Vector3D.mk 0 0 1) (Vector3D.mk 1 1 4)
          (Vector3D.mk 0 0 (-2))) (Vector3D.mk 0 0 (-2)))).sub (Vector3D.mk 0 0 0)) = 0 :=
  ⟨by norm_num [dot],
    rayCast_hits_plane (Vector3D.mk 0 0 0) (Vector3D.mk 0 0 1) (Vector3D.mk 1 1 4)
      (Vector3D.mk 0 0 (-2)) (by norm_num [dot])⟩

theorem sum_squares_nonneg (v : Vector3D ℝ) : 0 ≤ v.x * v.x + v.y * v.y + v.z * v.z := by
  nlinarith [mul_self_nonneg v.x, mul_self_nonneg v.y, mul_self_nonneg v.z]

/-- C15. Over the reals, for a vector of non-zero length, `normalized()` has length `1`
and `normalize()` leaves the receiver equal to `normalized()`. -/
theorem normalized_has_length_one (v : Vector3D ℝ) (h : v.length Real.sqrt ≠ 0) :
    (v.normalized Real.sqrt).length Real.sqrt = 1 ∧
    v.normalize Real.sqrt = v.normalized Real.sqrt := by
  refine ⟨?_, rfl⟩
  have hS := sum_squares_nonneg v
  have hl : Real.sqrt (v.x * v.x + v.y * v.y + v.z * v.z) *
      Real.sqrt (v.x * v.x + v.y * v.y + v.z * v.z) = v.x * v.x + v.y * v.y + v.z * v.z :=
    Real.mul_self_sqrt hS
  unfold length at h
  simp only [normalized, length]
  rw [Real.sqrt_eq_one]
  field_simp
  exact div_self (ne_of_gt (Real.sqrt_ne_zero'.mp h))

theorem normalized_has_length_one_witness :
    (Vector3D.mk (3 : ℝ) 0 4).length Real.sqrt ≠ 0 ∧
    ((Vector3D.mk (3 : ℝ) 0 4).normalized Real.sqrt).length Real.sqrt = 1 :=
  have h : (Vector3D.mk (3 : ℝ) 0 4).length Real.sqrt ≠ 0 := by
    rw [length, Real.sqrt_ne_zero']
    norm_num
  ⟨h, (normalized_has_length_one (Vector3D.mk 3 0 4) h).1⟩

theorem dot_self_of_length_one (n : Vector3D ℝ) (h : n.length Real.sqrt = 1) :
    n.x * n.x + n.y * n.y + n.z * n.z = 1 := by
  unfold length at h
  exact Real.sqrt_eq_one.mp h

/-- C19. Over the reals, for a plane with offset `o` and unit normal `n` and a point `p`,
`getProjectionOnPlane(o, n, p)` lies on the plane and differs from `p` by a multiple of
`n`. -/
theorem getProjectionOnPlane_on_plane (o n p : Vector3D ℝ) (h : n.length Real.sqrt = 1) :
    n.dot ((getProjectionOnPlane o n p).sub o) = 0 ∧
    ∃ k : ℝ, (getProjectionOnPlane o n p).sub p = scalarMul k n := by
  have hn := dot_self_of_length_one n h
  constructor
  · simp only [getProjectionOnPlane, dot, sub, scalarMul]
    linear_combination (-(n.x * (p.x - o.x) + n.y * (p.y - o.y) + n.z * (p.z - o.z))) * hn
  · refine ⟨-(n.dot (p.sub o)), ?_⟩
    simp only [getProjectionOnPlane, dot, sub, scalarMul]
    congr 1 <;> ring

theorem getProjectionOnPlane_on_plane_witness :
    (Vector3D.mk (0 : ℝ) 0 1).length Real.sqrt = 1 ∧
    (Vector3D.mk (0 : ℝ) 0 1).dot
      ((getProjectionOnPlane (Vector3D.mk 0 0 2) (Vector3D.mk 0 0 1)
        (Vector3D.mk 5 6 7)).sub (Vector3D.mk 0 0 2)) = 0 :=
  have h : (Vector3D.mk (0 : ℝ) 0 1).length Real.sqrt = 1 := by
    rw [length, Real.sqrt_eq_one]
    norm_num
  ⟨h, (getProjectionOnPlane_on_plane (Vector3D.mk 0 0 2) (Vector3D.mk 0 0 1)
    (Vector3D.mk 5 6 7) h).1⟩

/-- C20. Over the reals, rotating about a unit axis keeps the squared length, and the
rotation of angle `0` returns the vector itself. -/
theorem rotated_preserves_sqlength (v : Vector3D ℝ) (t : ℝ) (n : Vector3D ℝ)
    (h : n.length Real.sqrt = 1) :
    (rotated Real.sin Real.cos v t n).sqlength = v.sqlength ∧
    rotated Real.sin Real.cos v 0 n = v := by
  have hn := dot_self_of_length_one n h
  have hsc := Real.sin_sq_add_cos_sq (t * 0.5)
  constructor
  · simp only [rotated, sqlength, add, cross, scalarMul, mulScalar]
    generalize Real.sin (t * 0.5) = s at hsc
    generalize Real.cos (t * 0.5) = c at hsc
    linear_combination
      (4 * s ^ 2 * ((n.x * n.x + n.y * n.y + n.z * n.z) * (v.x * v.x + v.y * v.y + v.z * v.z) -
        (n.x * v.x + n.y * v.y + n.z * v.z) ^ 2)) * hsc +
      (4 * s ^ 4 * ((n.x * n.x + n.y * n.y + n.z * n.z) * (v.x * v.x + v.y * v.y + v.z * v.z) -
        (n.x * v.x + n.y * v.y + n.z * v.z) ^ 2)) * hn
  · simp [rotated, add, cross, scalarMul, mulScalar]

theorem rotated_preserves_sqlength_witness :
    (Vector3D.mk (0 : ℝ) 0 1).length Real.sqrt = 1 ∧
    (rotated Real.sin Real.cos (Vector3D.mk 1 2 3) 1 (Vector3D.mk 0 0 1)).sqlength =
      (Vector3D.mk (1 : ℝ) 2 3).sqlength :=
  have h : (Vector3D.mk (0 : ℝ) 0 1).length Real.sqrt = 1 := by
    rw [length, Real.sqrt_eq_one]
    norm_num
  ⟨h, (rotated_preserves_sqlength (Vector3D.mk 1 2 3) 1 (Vector3D.mk 0 0 1) h).1⟩

end Vector3D

namespace Vector3D

/-- C17. The two-argument `getHash(a, b)` does not collide on `[-32768, 32767]`, where
its 32-bit arithmetic does not wrap. -/
theorem getHash_injective (a b a' b' : Int)
    (ha1 : -32768 ≤ a) (ha2 : a ≤ 32767) (hb1 : -32768 ≤ b) (hb2 : b ≤ 32767)
    (ha1' : -32768 ≤ a') (ha2' : a' ≤ 32767) (hb1' : -32768 ≤ b') (hb2' : b' ≤ 32767)
    (h : getHash a b = getHash a' b') : a = a' ∧ b = b' :=
  getHash_inj_small a b a' b' ha1 ha2 hb1 hb2 ha1' ha2' hb1' hb2' h

theorem getHash_injective_witness :
    getHash (-32768) 32767 = getHash (-32768) 32767 ∧
    ((-32768 : Int) = -32768 ∧ (32767 : Int) = 32767) :=
  ⟨rfl, getHash_injective (-32768) 32767 (-32768) 32767 (by decide) (by decide) (by decide)
    (by decide) (by decide) (by decide) (by decide) (by decide) rfl⟩

variable {F : Type}

theorem intRange_nil (lo hi : Int) (h : hi < lo) : intRange lo hi = [] := by
  have : (hi + 1 - lo).toNat = 0 := by omega
  simp [intRange, this]

theorem intRange_cons (lo hi : Int) (h : lo ≤ hi) :
    intRange lo hi = lo :: intRange (lo + 1) hi := by
  have e : (hi + 1 - lo).toNat = (hi + 1 - (lo + 1)).toNat + 1 := by omega
  unfold intRange
  rw [e, List.range_succ_eq_map, List.map_cons, List.map_map]
  simp only [Nat.cast_zero, add_zero, List.cons.injEq, true_and]
  apply List.map_congr_left
  intro n _
  simp only [Function.comp, Nat.succ_eq_add_one, Nat.cast_add, Nat.cast_one]
  ring

theorem mem_intRange (lo hi x : Int) : x ∈ intRange lo hi ↔ lo ≤ x ∧ x ≤ hi := by
  unfold intRange
  rw [List.mem_map]
  constructor
  · rintro ⟨n, hn, rfl⟩
    rw [List.mem_range] at hn
    omega
  · intro h
    refine ⟨(x - lo).toNat, ?_, ?_⟩
    · rw [List.mem_range]; omega
    · omega

theorem intRange_pairwise (lo hi : Int) : (intRange lo hi).Pairwise (fun a b => a < b) := by
  unfold intRange
  rw [List.pairwise_map]
  refine List.Pairwise.imp ?_ (List.pairwise_lt_range _)
  intro a b hab
  omega

theorem wrapI32_of_range (n : Int) (hlo : -2147483648 ≤ n) (hhi : n ≤ 2147483647) :
    wrapI32 n = n := by
  unfold wrapI32
  omega

theorem wrapI32_le (n : Int) : wrapI32 n ≤ 2147483647 := by
  unfold wrapI32
  omega

theorem forInt_one {α : Type} (fuel : Nat) (i hi : Int) (g : Int → List α)
    (hlo : -2147483648 ≤ i) (hhi : hi < 2147483647) (hf : (hi + 1 - i).toNat ≤ fuel) :
    forInt fuel i hi 1 (fun i => some (g i)) = some ((intRange i hi).flatMap g) := by
  induction fuel generalizing i with
  | zero =>
    have hlt : hi < i := by omega
    have : ¬ i ≤ hi := by omega
    simp [forInt, this, intRange_nil i hi hlt]
  | succ n ih =>
    unfold forInt
    by_cases hle : i ≤ hi
    · rw [if_pos hle, wrapI32_of_range (i + 1) (by omega) (by omega),
        ih (i + 1) (by omega) (by omega), intRange_cons i hi hle]
      simp
    · rw [if_neg hle, intRange_nil i hi (by omega)]
      simp

theorem forInt_terminates {α : Type} (fuel : Nat) (i hi inc : Int)
    (body : Int → Option (List α)) (hinc : 1 ≤ inc) (hb : ∀ i, (body i).isSome = true)
    (hlo : -2147483648 ≤ i) (hhi : hi + inc ≤ 2147483647)
    (hf : (hi + 1 - i).toNat ≤ fuel) : (forInt fuel i hi inc body).isSome = true := by
  induction fuel generalizing i with
  | zero =>
    have : ¬ i ≤ hi := by omega
    simp [forInt, this]
  | succ n ih =>
    unfold forInt
    by_cases hle : i ≤ hi
    · rw [if_pos hle, wrapI32_of_range (i + inc) (by omega) (by omega)]
      obtain ⟨a, ha⟩ := Option.isSome_iff_exists.mp (hb i)
      obtain ⟨r, hr⟩ := Option.isSome_iff_exists.mp (ih (i + inc) (by omega) (by omega))
      simp [ha, hr]
    · rw [if_neg hle]; rfl

/-- A loop whose bound is the greatest `int` does not end: its condition `i <= iM` holds
for every value of the counter. -/
theorem forInt_stuck {α : Type} (fuel : Nat) (i inc : Int) (body : Int → Option (List α))
    (hi : i ≤ 2147483647) : forInt fuel i 2147483647 inc body = none := by
  induction fuel generalizing i with
  | zero => simp [forInt, hi]
  | succ n ih =>
    unfold forInt
    rw [if_pos hi, ih (wrapI32 (i + inc)) (wrapI32_le _)]
    cases body i <;> rfl

theorem bounds_eq [LinearOrder F] (double2int : F → Int) (hm : Monotone double2int) (a b : F)
    (ha : -2147483648 ≤ double2int a ∧ double2int a ≤ 2147483647)
    (hb : -2147483648 ≤ double2int b ∧ double2int b ≤ 2147483647) :
    bounds double2int a b =
      (min (double2int a) (double2int b), max (double2int a) (double2int b)) := by
  unfold bounds
  rw [wrapI32_of_range _ ha.1 ha.2, wrapI32_of_range _ hb.1 hb.2]
  by_cases h : a < b
  · have := hm (le_of_lt h)
    rw [if_pos h, min_eq_left this, max_eq_right this]
  · have := hm (not_lt.mp h)
    rw [if_neg h, min_eq_right this, max_eq_left this]

theorem mem_boxPoints (im iM jm jM km kM : Int) (p : Int × Int × Int) :
    p ∈ boxPoints im iM jm jM km kM ↔
      (im ≤ p.1 ∧ p.1 ≤ iM) ∧ (jm ≤ p.2.1 ∧ p.2.1 ≤ jM) ∧ (km ≤ p.2.2 ∧ p.2.2 ≤ kM) := by
  obtain ⟨i, j, k⟩ := p
  simp only [boxPoints, List.mem_flatMap, mem_intRange, List.mem_singleton, Prod.mk.injEq]
  constructor
  · rintro ⟨a, ha, b, hb, c, hc, rfl, rfl, rfl⟩
    exact ⟨ha, hb, hc⟩
  · rintro ⟨ha, hb, hc⟩
    exact ⟨i, ha, j, hb, k, hc, rfl, rfl, rfl⟩

theorem boxPoints_pairwise (im iM jm jM km kM : Int) :
    (boxPoints im iM jm jM km kM).Pairwise lexLt := by
  unfold boxPoints
  rw [List.pairwise_flatMap]
  constructor
  · intro i _
    rw [List.pairwise_flatMap]
    constructor
    · intro j _
      rw [List.pairwise_flatMap]
      constructor
      · intro k _; simp
      · refine List.Pairwise.imp ?_ (intRange_pairwise km kM)
        intro k1 k2 hk x hx y hy
        simp only [List.mem_singleton] at hx hy
        subst hx hy
        exact Or.inr ⟨rfl, Or.inr ⟨rfl, hk⟩⟩
    · refine List.Pairwise.imp ?_ (intRange_pairwise jm jM)
      intro j1 j2 hj x hx y hy
      simp only [List.mem_flatMap, List.mem_singleton] at hx hy
      obtain ⟨_, _, rfl⟩ := hx
      obtain ⟨_, _, rfl⟩ := hy
      exact Or.inr ⟨rfl, Or.inl hj⟩
  · refine List.Pairwise.imp ?_ (intRange_pairwise im iM)
    intro i1 i2 hi x hx y hy
    simp only [List.mem_flatMap, List.mem_singleton] at hx hy
    obtain ⟨_, _, _, _, rfl⟩ := hx
    obtain ⟨_, _, _, _, rfl⟩ := hy
    exact Or.inl hi

theorem lexLt_irrefl (p : Int × Int × Int) : ¬ lexLt p p := by
  unfold lexLt
  omega

theorem iterateTo_one [LinearOrder F] (double2int : F → Int) (hm : Monotone double2int)
    (u v : Vector3D F)
    (hr : ∀ c ∈ [u.x, u.y, u.z, v.x, v.y, v.z], InIntRange double2int 1 c) (fuel : Nat)
    (hi : (max (double2int u.x) (double2int v.x) + 1 -
      min (double2int u.x) (double2int v.x)).toNat ≤ fuel)
    (hj : (max (double2int u.y) (double2int v.y) + 1 -
      min (double2int u.y) (double2int v.y)).toNat ≤ fuel)
    (hk : (max (double2int u.z) (double2int v.z) + 1 -
      min (double2int u.z) (double2int v.z)).toNat ≤ fuel) :
    iterateTo double2int fuel u v 1 =
      some (boxPoints (min (double2int u.x) (double2int v.x))
        (max (double2int u.x) (double2int v.x)) (min (double2int u.y) (double2int v.y))
        (max (double2int u.y) (double2int v.y)) (min (double2int u.z) (double2int v.z))
        (max (double2int u.z) (double2int v.z))) := by
  have rux := hr u.x (by simp)
  have ruy := hr u.y (by simp)
  have ruz := hr u.z (by simp)
  have rvx := hr v.x (by simp)
  have rvy := hr v.y (by simp)
  have rvz := hr v.z (by simp)
  unfold InIntRange at rux ruy ruz rvx rvy rvz
  unfold iterateTo boxPoints
  rw [bounds_eq double2int hm u.x v.x ⟨rux.1, by omega⟩ ⟨rvx.1, by omega⟩,
    bounds_eq double2int hm u.y v.y ⟨ruy.1, by omega⟩ ⟨rvy.1, by omega⟩,
    bounds_eq double2int hm u.z v.z ⟨ruz.1, by omega⟩ ⟨rvz.1, by omega⟩]
  simp only
  have e3 : ∀ i j : Int,
      forInt fuel (min (double2int u.z) (double2int v.z))
        (max (double2int u.z) (double2int v.z)) 1 (fun k => some [(i, j, k)]) =
      some ((intRange (min (double2int u.z) (double2int v.z))
        (max (double2int u.z) (double2int v.z))).flatMap (fun k => [(i, j, k)])) :=
    fun i j => forInt_one fuel _ _ _ (le_min ruz.1 rvz.1)
      (max_lt (by omega) (by omega)) hk
  simp only [e3]
  have e2 : ∀ i : Int,
      forInt fuel (min (double2int u.y) (double2int v.y))
        (max (double2int u.y) (double2int v.y)) 1
        (fun j => some ((intRange (min (double2int u.z) (double2int v.z))
          (max (double2int u.z) (double2int v.z))).flatMap (fun k => [(i, j, k)]))) =
      some ((intRange (min (double2int u.y) (double2int v.y))
        (max (double2int u.y) (double2int v.y))).flatMap (fun j =>
          (intRange (min (double2int u.z) (double2int v.z))
            (max (double2int u.z) (double2int v.z))).flatMap (fun k => [(i, j, k)]))) :=
    fun i => forInt_one fuel _ _ _ (le_min ruy.1 rvy.1) (max_lt (by omega) (by omega)) hj
  simp only [e2]
  exact forInt_one fuel _ _ _ (le_min rux.1 rvx.1) (max_lt (by omega) (by omega)) hi

theorem iterateTo_comm [LinearOrder F] (double2int : F → Int)
    (u v : Vector3D F) (fuel : Nat) (inc : Int) :
    iterateTo double2int fuel v u inc = iterateTo double2int fuel u v inc := by
  have hb : ∀ a b : F, bounds double2int a b = bounds double2int b a := by
    intro a b
    unfold bounds
    rcases lt_trichotomy a b with h | h | h
    · rw [if_pos h, if_neg (not_lt.mpr (le_of_lt h))]
    · subst h; rfl
    · rw [if_neg (not_lt.mpr (le_of_lt h)), if_pos h]
  unfold iterateTo
  rw [hb v.x u.x, hb v.y u.y, hb v.z u.z]

theorem iterateTo_terminates [LinearOrder F] (double2int : F → Int)
    (hm : Monotone double2int) (u v : Vector3D F) (inc : Int) (hinc : 1 ≤ inc)
    (hr : ∀ c ∈ [u.x, u.y, u.z, v.x, v.y, v.z], InIntRange double2int inc c) :
    ∃ fuel, (iterateTo double2int fuel u v inc).isSome = true := by
  have rux := hr u.x (by simp)
  have ruy := hr u.y (by simp)
  have ruz := hr u.z (by simp)
  have rvx := hr v.x (by simp)
  have rvy := hr v.y (by simp)
  have rvz := hr v.z (by simp)
  unfold InIntRange at rux ruy ruz rvx rvy rvz
  refine ⟨max (max (double2int u.x) (double2int v.x) + 1 -
      min (double2int u.x) (double2int v.x)).toNat
    (max (max (double2int u.y) (double2int v.y) + 1 -
        min (double2int u.y) (double2int v.y)).toNat
      (max (double2int u.z) (double2int v.z) + 1 -
        min (double2int u.z) (double2int v.z)).toNat), ?_⟩
  unfold iterateTo
  rw [bounds_eq double2int hm u.x v.x ⟨rux.1, by omega⟩ ⟨rvx.1, by omega⟩,
    bounds_eq double2int hm u.y v.y ⟨ruy.1, by omega⟩ ⟨rvy.1, by omega⟩,
    bounds_eq double2int hm u.z v.z ⟨ruz.1, by omega⟩ ⟨rvz.1, by omega⟩]
  simp only
  apply forInt_terminates _ _ _ _ _ hinc _ (le_min rux.1 rvx.1)
    (by rcases max_choice (double2int u.x) (double2int v.x) with e | e <;> rw [e] <;> omega)
    (le_max_left _ _)
  intro i
  apply forInt_terminates _ _ _ _ _ hinc _ (le_min ruy.1 rvy.1)
    (by rcases max_choice (double2int u.y) (double2int v.y) with e | e <;> rw [e] <;> omega)
    (le_trans (le_max_left _ _) (le_max_right _ _))
  intro j
  apply forInt_terminates _ _ _ _ _ hinc _ (le_min ruz.1 rvz.1)
    (by rcases max_choice (double2int u.z) (double2int v.z) with e | e <;> rw [e] <;> omega)
    (le_trans (le_max_right _ _) (le_max_right _ _))
  intro k
  rfl

/-- C18, as the code has it. The counters of `iterateTo` are `int`s. For a monotone `double2int`
whose values at the six coordinates of the corners `u` and `v` are `int`s below the
greatest one, and step `1`, `iterateTo` ends (with enough fuel, and then whatever the
fuel) and calls the callback on the points of the box spanned by the converted
coordinates of `u` and `v`, in lexicographic order: on every integer point within the
bounds on each axis, on no other, once each, and the same whichever corner is the
receiver (this last for every `double2int`, step and fuel). For a step `inc ≥ 1` the
iteration ends when no converted coordinate plus `inc` exceeds the greatest `int`. -/
theorem iterateTo_visits_the_box [LinearOrder F] (double2int : F → Int)
    (hm : Monotone double2int) (u v : Vector3D F)
    (hr : ∀ c ∈ [u.x, u.y, u.z, v.x, v.y, v.z], InIntRange double2int 1 c) :
    (∃ fuel0, ∀ fuel, fuel0 ≤ fuel →
      iterateTo double2int fuel u v 1 =
        some (boxPoints (min (double2int u.x) (double2int v.x))
          (max (double2int u.x) (double2int v.x)) (min (double2int u.y) (double2int v.y))
          (max (double2int u.y) (double2int v.y)) (min (double2int u.z) (double2int v.z))
          (max (double2int u.z) (double2int v.z)))) ∧
    (∀ fuel inc, iterateTo double2int fuel v u inc = iterateTo double2int fuel u v inc) ∧
    (∀ p : Int × Int × Int,
      p ∈ boxPoints (min (double2int u.x) (double2int v.x))
          (max (double2int u.x) (double2int v.x)) (min (double2int u.y) (double2int v.y))
          (max (double2int u.y) (double2int v.y)) (min (double2int u.z) (double2int v.z))
          (max (double2int u.z) (double2int v.z)) ↔
        (min (double2int u.x) (double2int v.x) ≤ p.1 ∧
          p.1 ≤ max (double2int u.x) (double2int v.x)) ∧
        (min (double2int u.y) (double2int v.y) ≤ p.2.1 ∧
          p.2.1 ≤ max (double2int u.y) (double2int v.y)) ∧
        (min (double2int u.z) (double2int v.z) ≤ p.2.2 ∧
          p.2.2 ≤ max (double2int u.z) (double2int v.z))) ∧
    (boxPoints (min (double2int u.x) (double2int v.x))
      (max (double2int u.x) (double2int v.x)) (min (double2int u.y) (double2int v.y))
      (max (double2int u.y) (double2int v.y)) (min (double2int u.z) (double2int v.z))
      (max (double2int u.z) (double2int v.z))).Pairwise lexLt ∧
    (boxPoints (min (double2int u.x) (double2int v.x))
      (max (double2int u.x) (double2int v.x)) (min (double2int u.y) (double2int v.y))
      (max (double2int u.y) (double2int v.y)) (min (double2int u.z) (double2int v.z))
      (max (double2int u.z) (double2int v.z))).Nodup ∧
    (∀ inc : Int, 1 ≤ inc →
      (∀ c ∈ [u.x, u.y, u.z, v.x, v.y, v.z], InIntRange double2int inc c) →
      ∃ fuel, (iterateTo double2int fuel u v inc).isSome = true) := by
  refine ⟨?_, fun fuel inc => iterateTo_comm double2int u v fuel inc,
    mem_boxPoints _ _ _ _ _ _, boxPoints_pairwise _ _ _ _ _ _, ?_,
    fun inc hinc hri => iterateTo_terminates double2int hm u v inc hinc hri⟩
  · refine ⟨max (max (double2int u.x) (double2int v.x) + 1 -
        min (double2int u.x) (double2int v.x)).toNat
      (max (max (double2int u.y) (double2int v.y) + 1 -
          min (double2int u.y) (double2int v.y)).toNat
        (max (double2int u.z) (double2int v.z) + 1 -
          min (double2int u.z) (double2int v.z)).toNat), ?_⟩
    intro fuel hfuel
    refine iterateTo_one double2int hm u v hr fuel ?_ ?_ ?_
    · exact le_trans (le_max_left _ _) hfuel
    · exact le_trans (le_trans (le_max_left _ _) (le_max_right _ _)) hfuel
    · exact le_trans (le_trans (le_max_right _ _) (le_max_right _ _)) hfuel
  · refine List.Pairwise.imp ?_ (boxPoints_pairwise _ _ _ _ _ _)
    intro a b hab e
    subst e
    exact lexLt_irrefl a hab

theorem iterateTo_visits_the_box_witness :
    Monotone (fun x : Int => x) ∧
    (∀ c ∈ [(1 : Int), 0, 0, 0, 1, 0], InIntRange (fun x : Int => x) 1 c) ∧
    iterateTo (fun x : Int => x) 5 (Vector3D.mk 1 0 0) (Vector3D.mk 0 1 0) 1 =
      some [(0, 0, 0), (0, 1, 0), (1, 0, 0), (1, 1, 0)] ∧
    (∃ fuel0, ∀ fuel, fuel0 ≤ fuel →
      iterateTo (fun x : Int => x) fuel (Vector3D.mk 1 0 0) (Vector3D.mk 0 1 0) 1 =
        some (boxPoints (min 1 0) (max 1 0) (min 0 1) (max 0 1) (min 0 0) (max 0 0))) :=
  ⟨fun _ _ h => h, by simp [InIntRange], by decide,
    (iterateTo_visits_the_box (fun x : Int => x) (fun _ _ h => h) (Vector3D.mk 1 0 0)
      (Vector3D.mk 0 1 0) (by simp [InIntRange])).1⟩

/-- C18, as stated, fails at the greatest `int`: with the identity as `double2int`
(monotone) and step `1`, from the corner `(0, 0, 2147483647)` to itself the box has one
point, and `iterateTo` does not end: the innermost counter cannot exceed its bound. -/
theorem iterateTo_does_not_end_at_the_greatest_int :
    Monotone (fun x : Int => x) ∧
    boxPoints 0 0 0 0 2147483647 2147483647 = [(0, 0, 2147483647)] ∧
    ¬ ∃ fuel, (iterateTo (fun x : Int => x) fuel (Vector3D.mk 0 0 2147483647)
      (Vector3D.mk 0 0 2147483647) 1).isSome = true := by
  refine ⟨fun _ _ h => h, by decide, ?_⟩
  rintro ⟨fuel, h⟩
  have e : iterateTo (fun x : Int => x) fuel (Vector3D.mk 0 0 2147483647)
      (Vector3D.mk 0 0 2147483647) 1 = none := by
    have hb : bounds (fun x : Int => x) (2147483647 : Int) 2147483647 =
        (2147483647, 2147483647) := by decide
    have hz : bounds (fun x : Int => x) (0 : Int) 0 = (0, 0) := by decide
    unfold iterateTo
    simp only [hb, hz]
    cases fuel with
    | zero => simp [forInt]
    | succ n =>
      have inner : ∀ j : Int,
          forInt (n + 1) 2147483647 2147483647 1 (fun k => some [((0 : Int), j, k)]) = none :=
        fun j => forInt_stuck _ _ _ _ (le_refl _)
      have mid : forInt (n + 1) 0 0 1 (fun j =>
          forInt (n + 1) 2147483647 2147483647 1 (fun k => some [((0 : Int), j, k)])) = none := by
        simp only [inner]
        unfold forInt
        simp
      unfold forInt
      simp [mid]
  rw [e] at h
  exact absurd h (by simp)

end Vector3D

namespace BasicWorld
variable {σ V R γ μ : Type}

/-- C11. `lookForNewCollisionsAndConnections` runs the agent-agent detection exactly
when `cellCellCollisions` is set, and the agent-model detection exactly when
`cellModelCollisions` is set and a model is registered: a detection that runs leaves in
its container what `Cell::checkFor...Connections` returns for the current arguments, a
detection that is skipped leaves its container (and, for the agent-agent one, the agent
grid) unchanged. -/
theorem lookForNew_runs_detection_iff_enabled (ct : CellType σ V R γ μ)
    (w : BasicWorld σ V R γ μ) :
    (w.cellCellCollisions = true →
      (lookForNewCollisionsAndConnections ct w).cellCellConnections =
        (ct.checkForCellCellConnections w.cells w.cellCellConnections
          w.cellSpacePartition w.heap).1 ∧
      (lookForNewCollisionsAndConnections ct w).cellSpacePartition =
        (ct.checkForCellCellConnections w.cells w.cellCellConnections
          w.cellSpacePartition w.heap).2.1) ∧
    (w.cellCellCollisions = false →
      (lookForNewCollisionsAndConnections ct w).cellCellConnections = w.cellCellConnections ∧
      (lookForNewCollisionsAndConnections ct w).cellSpacePartition = w.cellSpacePartition) ∧
    ((w.cellModelCollisions = true ∧ 0 < w.models.length) →
      (lookForNewCollisionsAndConnections ct w).cellModelConnections =
        (ct.checkForCellModelConnections w.cells w.models w.cellModelConnections
          w.modelSpacePartition
          (if w.cellCellCollisions then
            (ct.checkForCellCellConnections w.cells w.cellCellConnections
              w.cellSpacePartition w.heap).2.2
           else w.heap)).1) ∧
    (¬ (w.cellModelCollisions = true ∧ 0 < w.models.length) →
      (lookForNewCollisionsAndConnections ct w).cellModelConnections =
        w.cellModelConnections) ∧
    ((w.cellCellCollisions = false ∧ ¬ (w.cellModelCollisions = true ∧ 0 < w.models.length)) →
      lookForNewCollisionsAndConnections ct w = w) := by
  by_cases hc : w.cellCellCollisions = true <;>
    by_cases hm : (w.cellModelCollisions = true ∧ 0 < w.models.length)
  · simp [lookForNewCollisionsAndConnections, hc, hm, hm.1, hm.2]
  · have hm2 : (w.cellModelCollisions && decide (w.models.length > 0)) = false := by
      simpa using hm
    simp [lookForNewCollisionsAndConnections, hc, hm, hm2]
  · simp [lookForNewCollisionsAndConnections, hc, hm, hm.1, hm.2]
  · have hm2 : (w.cellModelCollisions && decide (w.models.length > 0)) = false := by
      simpa using hm
    simp [lookForNewCollisionsAndConnections, hc, hm, hm2]

end BasicWorld

namespace BasicWorld
variable {σ V R γ μ : Type}

theorem flags_foldl_addCell (l : List CellPtr) (w : BasicWorld σ V R γ μ) :
    (l.foldl addCell w).cellCellCollisions = w.cellCellCollisions ∧
    (l.foldl addCell w).cellModelCollisions = w.cellModelCollisions := by
  induction l generalizing w with
  | nil => exact ⟨rfl, rfl⟩
  | cons c rest ih =>
    rw [List.foldl_cons]
    have h := ih (addCell w c)
    have e : (addCell w c).cellCellCollisions = w.cellCellCollisions ∧
        (addCell w c).cellModelCollisions = w.cellModelCollisions := by
      unfold addCell
      split_ifs <;> exact ⟨rfl, rfl⟩
    exact ⟨h.1.trans e.1, h.2.trans e.2⟩

theorem flags_updateBehaviors (ct : CellType σ V R γ μ) (w : BasicWorld σ V R γ μ) :
    (updateBehaviors ct w).cellCellCollisions = w.cellCellCollisions ∧
    (updateBehaviors ct w).cellModelCollisions = w.cellModelCollisions := by
  cases hf : ct.updateBehavior with
  | none => rw [(updateBehaviors_none ct w hf).1]; exact ⟨rfl, rfl⟩
  | some f =>
    rw [(updateBehaviors_some ct w f hf).1]
    exact flags_foldl_addCell _ _

theorem flags_lookForNew (ct : CellType σ V R γ μ) (w : BasicWorld σ V R γ μ) :
    (lookForNewCollisionsAndConnections ct w).cellCellCollisions = w.cellCellCollisions ∧
    (lookForNewCollisionsAndConnections ct w).cellModelCollisions = w.cellModelCollisions := by
  unfold lookForNewCollisionsAndConnections
  simp only
  split_ifs <;> exact ⟨rfl, rfl⟩

theorem flags_updateModelGrid [Inhabited V] (cover : V → V → V → List GridCell)
    (w : BasicWorld σ V R γ μ) :
    (updateModelGrid cover w).cellCellCollisions = w.cellCellCollisions ∧
    (updateModelGrid cover w).cellModelCollisions = w.cellModelCollisions := by
  unfold updateModelGrid
  simp only
  split_ifs <;> exact ⟨rfl, rfl⟩

theorem flags_prepareCellForNextUpdate (ct : CellType σ V R γ μ) (w : BasicWorld σ V R γ μ) :
    (prepareCellForNextUpdate ct w).cellCellCollisions = w.cellCellCollisions ∧
    (prepareCellForNextUpdate ct w).cellModelCollisions = w.cellModelCollisions :=
  ⟨rfl, rfl⟩

theorem flags_addWorldSpecificForces (ct : CellType σ V R γ μ) (w : BasicWorld σ V R γ μ) :
    (addWorldSpecificForces ct w).cellCellCollisions = w.cellCellCollisions ∧
    (addWorldSpecificForces ct w).cellModelCollisions = w.cellModelCollisions :=
  ⟨rfl, rfl⟩

theorem flags_updateExisting (ct : CellType σ V R γ μ) (w : BasicWorld σ V R γ μ) :
    (updateExistingCollisionsAndConnections ct w).cellCellCollisions = w.cellCellCollisions ∧
    (updateExistingCollisionsAndConnections ct w).cellModelCollisions =
      w.cellModelCollisions :=
  ⟨rfl, rfl⟩

theorem flags_updateCellsPositions (ct : CellType σ V R γ μ) (w : BasicWorld σ V R γ μ) :
    (updateCellsPositions ct w).cellCellCollisions = w.cellCellCollisions ∧
    (updateCellsPositions ct w).cellModelCollisions = w.cellModelCollisions :=
  ⟨rfl, rfl⟩

theorem flags_destroyDeadCells (w : BasicWorld σ V R γ μ) :
    (destroyDeadCells w).cellCellCollisions = w.cellCellCollisions ∧
    (destroyDeadCells w).cellModelCollisions = w.cellModelCollisions :=
  ⟨rfl, rfl⟩

theorem flags_update [Inhabited V] (ct : CellType σ V R γ μ)
    (cover : V → V → V → List GridCell) (w : BasicWorld σ V R γ μ) :
    (update ct cover w).cellCellCollisions = w.cellCellCollisions ∧
    (update ct cover w).cellModelCollisions = w.cellModelCollisions := by
  rw [update_eq]
  constructor
  · show (destroyDeadCells (beforeReap ct cover w)).cellCellCollisions = _
    rw [(flags_destroyDeadCells _).1]
    unfold beforeReap
    rw [(flags_updateBehaviors ct _).1, (flags_lookForNew ct _).1,
      (flags_updateCellsPositions ct _).1, (flags_updateExisting ct _).1,
      (flags_addWorldSpecificForces ct _).1, (flags_prepareCellForNextUpdate ct _).1,
      (flags_updateModelGrid cover w).1]
  · show (destroyDeadCells (beforeReap ct cover w)).cellModelCollisions = _
    rw [(flags_destroyDeadCells _).2]
    unfold beforeReap
    rw [(flags_updateBehaviors ct _).2, (flags_lookForNew ct _).2,
      (flags_updateCellsPositions ct _).2, (flags_updateExisting ct _).2,
      (flags_addWorldSpecificForces ct _).2, (flags_prepareCellForNextUpdate ct _).2,
      (flags_updateModelGrid cover w).2]

/-- What a public call does to the two collision flags. -/
theorem applyCall_flags [Inhabited V] (ct : CellType σ V R γ μ)
    (cover : V → V → V → List GridCell) (load : String → Model V)
    (w : BasicWorld σ V R γ μ) (call : WorldCall V R) :
    (applyCall ct cover load w call).cellModelCollisions = w.cellModelCollisions ∧
    ((applyCall ct cover load w call).cellCellCollisions = w.cellCellCollisions ∨
      (applyCall ct cover load w call).cellCellCollisions = false) := by
  cases call with
  | disableCellCellCollisions => exact ⟨rfl, Or.inr rfl⟩
  | updateBehaviors => exact ⟨(flags_updateBehaviors ct w).2, Or.inl (flags_updateBehaviors ct w).1⟩
  | lookForNewCollisionsAndConnections =>
    exact ⟨(flags_lookForNew ct w).2, Or.inl (flags_lookForNew ct w).1⟩
  | update => exact ⟨(flags_update ct cover w).2, Or.inl (flags_update ct cover w).1⟩
  | updateModelGrid =>
    exact ⟨(flags_updateModelGrid cover w).2, Or.inl (flags_updateModelGrid cover w).1⟩
  | addCell c =>
    have h := flags_foldl_addCell [c] w
    exact ⟨h.2, Or.inl h.1⟩
  | _ => exact ⟨rfl, Or.inl rfl⟩

/-- C12, as the code has it. `disableCellCellCollisions` clears the agent-agent flag and
leaves the agent-model flag as it is; no public call of the world changes the
agent-model flag, and none sets the agent-agent flag again once it is cleared. -/
theorem only_agent_agent_detection_can_be_disabled [Inhabited V] (ct : CellType σ V R γ μ)
    (cover : V → V → V → List GridCell) (load : String → Model V)
    (w : BasicWorld σ V R γ μ) (call : WorldCall V R) :
    (disableCellCellCollisions w).cellCellCollisions = false ∧
    (disableCellCellCollisions w).cellModelCollisions = w.cellModelCollisions ∧
    (applyCall ct cover load w call).cellModelCollisions = w.cellModelCollisions ∧
    ((applyCall ct cover load w call).cellCellCollisions = true →
      w.cellCellCollisions = true) := by
  obtain ⟨h1, h2⟩ := applyCall_flags ct cover load w call
  refine ⟨rfl, rfl, h1, ?_⟩
  intro h
  rcases h2 with e | e
  · rw [← e]; exact h
  · rw [e] at h; exact absurd h (by simp)

/-- C12, as stated, fails for the agent-model kind: there is no cell type, world and
public call of the world such that the call changes the agent-model flag. -/
theorem no_call_changes_the_agent_model_flag :
    ¬ ∃ (σ V R γ μ : Type) (inst : Inhabited V) (ct : CellType σ V R γ μ)
        (cover : V → V → V → List GridCell) (load : String → Model V)
        (w : BasicWorld σ V R γ μ) (call : WorldCall V R),
      (@applyCall σ V R γ μ inst ct cover load w call).cellModelCollisions ≠
        w.cellModelCollisions := by
  rintro ⟨σ, V, R, γ, μ, inst, ct, cover, load, w, call, h⟩
  exact h (applyCall_flags ct cover load w call).1

end BasicWorld

theorem nested_foldl_eq {α β γ : Type} (f : α → List β) (g : γ → α → β → γ) (l : List α)
    (init : γ) :
    l.foldl (fun u c => (f c).foldl (fun u1 o => g u1 c o) u) init =
      (l.flatMap (fun c => (f c).map (fun o => (c, o)))).foldl (fun u p => g u p.1 p.2) init := by
  induction l generalizing init with
  | nil => rfl
  | cons c rest ih =>
    rw [List.foldl_cons, List.flatMap_cons, List.foldl_append, List.foldl_map, ih]

namespace unique_vector

variable {α : Type}

theorem mem_insert (eq : α → α → Bool) (u : List α) (a x : α) (hx : x ∈ insert eq u a) :
    x ∈ u ∨ x = a := by
  unfold insert at hx
  split_ifs at hx
  · exact Or.inl hx
  · simpa using hx

theorem subset_insert (eq : α → α → Bool) (u : List α) (a x : α) (hx : x ∈ u) :
    x ∈ insert eq u a := by
  unfold insert
  split_ifs
  · exact hx
  · exact List.mem_append_left _ hx

theorem cover_insert (eq : α → α → Bool) (hrefl : ∀ a, eq a a = true) (u : List α) (a : α) :
    ∃ y ∈ insert eq u a, eq y a = true := by
  unfold insert
  split_ifs with h
  · exact List.any_eq_true.mp h
  · exact ⟨a, by simp, hrefl a⟩

theorem pairwise_insert (eq : α → α → Bool) (u : List α) (a : α)
    (hu : u.Pairwise (fun x y => eq x y = false)) :
    (insert eq u a).Pairwise (fun x y => eq x y = false) := by
  unfold insert
  split_ifs with h
  · exact hu
  · rw [List.pairwise_append]
    refine ⟨hu, by simp, ?_⟩
    intro x hx y hy
    have hy2 : y = a := by simpa using hy
    subst hy2
    rw [List.any_eq_true] at h
    cases hq : eq x y with
    | false => rfl
    | true => exact absurd ⟨x, hx, hq⟩ h

theorem foldl_insert (eq : α → α → Bool) (hrefl : ∀ a, eq a a = true) (cands u0 : List α)
    (hu : u0.Pairwise (fun x y => eq x y = false)) :
    (∀ x ∈ cands.foldl (insert eq) u0, x ∈ u0 ∨ x ∈ cands) ∧
    (∀ x ∈ u0, x ∈ cands.foldl (insert eq) u0) ∧
    (∀ x ∈ cands, ∃ y ∈ cands.foldl (insert eq) u0, eq y x = true) ∧
    (cands.foldl (insert eq) u0).Pairwise (fun x y => eq x y = false) := by
  induction cands generalizing u0 with
  | nil => exact ⟨fun x hx => Or.inl hx, fun x hx => hx, by simp, hu⟩
  | cons a rest ih =>
    rw [List.foldl_cons]
    obtain ⟨h1, h2, h3, h4⟩ := ih (insert eq u0 a) (pairwise_insert eq u0 a hu)
    refine ⟨?_, ?_, ?_, h4⟩
    · intro x hx
      rcases h1 x hx with h | h
      · rcases mem_insert eq u0 a x h with h' | h'
        · exact Or.inl h'
        · exact Or.inr (h' ▸ List.mem_cons_self _ _)
      · exact Or.inr (List.mem_cons_of_mem _ h)
    · intro x hx
      exact h2 x (subset_insert eq u0 a x hx)
    · intro x hx
      rcases List.mem_cons.mp hx with h | h
      · subst h
        obtain ⟨y, hy, hyx⟩ := cover_insert eq hrefl u0 x
        exact ⟨y, h2 y hy, hyx⟩
      · exact h3 x h

end unique_vector

theorem make_ordered_cell_pair_cases {T : Type} (idOf : T → Nat) (a b : T) :
    (make_ordered_cell_pair idOf a b = { first := a, second := b } ∨
      make_ordered_cell_pair idOf a b = { first := b, second := a }) ∧
    idOf (make_ordered_cell_pair idOf a b).first ≤
      idOf (make_ordered_cell_pair idOf a b).second := by
  unfold make_ordered_cell_pair
  split_ifs with h
  · exact ⟨Or.inl rfl, le_of_lt h⟩
  · exact ⟨Or.inr rfl, not_lt.mp h⟩

namespace BasicWorld
variable {σ V R γ μ : Type}

/-- The vector `uniquePairs` of `getConnectedCellsList`, as one fold over the connected
pairs. -/
theorem getConnectedCellsList_eq (w : BasicWorld σ V R γ μ) :
    getConnectedCellsList w =
      ((connectedPairs w).foldl
        (fun u p => unique_vector.insert (ordered_pair.beqById (fun p => (w.heap p).id)) u
          (make_ordered_cell_pair (fun p => (w.heap p).id) p.1 p.2)) []).map
        (fun p => (p.first, p.second)) := by
  unfold getConnectedCellsList connectedPairs
  simp only
  rw [nested_foldl_eq (fun c => (w.heap c).connectedCells)
    (fun u c o => unique_vector.insert (ordered_pair.beqById (fun p => (w.heap p).id)) u
      (make_ordered_cell_pair (fun p => (w.heap p).id) c o))]

theorem mem_connectedAgents (w : BasicWorld σ V R γ μ) (p : CellPtr × CellPtr)
    (hp : p ∈ connectedPairs w) : p.1 ∈ connectedAgents w ∧ p.2 ∈ connectedAgents w := by
  unfold connectedAgents
  simp only [List.mem_flatMap]
  exact ⟨⟨p, hp, by simp⟩, ⟨p, hp, by simp⟩⟩

/-- What the vector `uniquePairs` holds when ids are distinct. -/
theorem uniquePairs_spec (w : BasicWorld σ V R γ μ)
    (hinj : ∀ a ∈ connectedAgents w, ∀ b ∈ connectedAgents w,
      (w.heap a).id = (w.heap b).id → a = b)
    (q : CellPtr × CellPtr) :
    (q ∈ getConnectedCellsList w ↔
      ∃ p ∈ connectedPairs w,
        make_ordered_cell_pair (fun p => (w.heap p).id) p.1 p.2 =
          { first := q.1, second := q.2 }) ∧
    (getConnectedCellsList w).Nodup := by
  rw [getConnectedCellsList_eq]
  have hrefl : ∀ a : ordered_pair CellPtr,
      ordered_pair.beqById (fun p => (w.heap p).id) a a = true := by
    intro a; simp [ordered_pair.beqById]
  have hfold := unique_vector.foldl_insert (ordered_pair.beqById (fun p => (w.heap p).id))
    hrefl ((connectedPairs w).map
      (fun p => make_ordered_cell_pair (fun p => (w.heap p).id) p.1 p.2)) [] (by simp)
  rw [List.foldl_map] at hfold
  obtain ⟨h1, _, h3, h4⟩ := hfold
  -- every stored pair is the canonical form of a connected pair
  have hU : ∀ x ∈ (connectedPairs w).foldl
      (fun u p => unique_vector.insert (ordered_pair.beqById (fun p => (w.heap p).id)) u
        (make_ordered_cell_pair (fun p => (w.heap p).id) p.1 p.2)) [],
      ∃ p ∈ connectedPairs w, make_ordered_cell_pair (fun p => (w.heap p).id) p.1 p.2 = x := by
    intro x hx
    rcases h1 x hx with h | h
    · simp at h
    · obtain ⟨p, hp, e⟩ := List.mem_map.mp h
      exact ⟨p, hp, e⟩
  have hcanonAgents : ∀ p ∈ connectedPairs w,
      (make_ordered_cell_pair (fun p => (w.heap p).id) p.1 p.2).first ∈ connectedAgents w ∧
      (make_ordered_cell_pair (fun p => (w.heap p).id) p.1 p.2).second ∈ connectedAgents w := by
    intro p hp
    obtain ⟨ha, hb⟩ := mem_connectedAgents w p hp
    rcases (make_ordered_cell_pair_cases (fun p => (w.heap p).id) p.1 p.2).1 with e | e <;>
      rw [e] <;> simp [ha, hb]
  have heq : ∀ p ∈ connectedPairs w, ∀ p2 ∈ connectedPairs w,
      ordered_pair.beqById (fun p => (w.heap p).id)
        (make_ordered_cell_pair (fun p => (w.heap p).id) p.1 p.2)
        (make_ordered_cell_pair (fun p => (w.heap p).id) p2.1 p2.2) = true →
      make_ordered_cell_pair (fun p => (w.heap p).id) p.1 p.2 =
        make_ordered_cell_pair (fun p => (w.heap p).id) p2.1 p2.2 := by
    intro p hp p2 hp2 hb
    obtain ⟨a1, a2⟩ := hcanonAgents p hp
    obtain ⟨b1, b2⟩ := hcanonAgents p2 hp2
    simp only [ordered_pair.beqById, Bool.and_eq_true, beq_iff_eq] at hb
    have e1 := hinj _ a1 _ b1 hb.1
    have e2 := hinj _ a2 _ b2 hb.2
    cases hx : make_ordered_cell_pair (fun p => (w.heap p).id) p.1 p.2
    cases hy : make_ordered_cell_pair (fun p => (w.heap p).id) p2.1 p2.2
    rw [hx, hy] at e1 e2
    simp only at e1 e2
    rw [e1, e2]
  constructor
  · rw [List.mem_map]
    constructor
    · rintro ⟨x, hx, rfl⟩
      obtain ⟨p, hp, e⟩ := hU x hx
      exact ⟨p, hp, e⟩
    · rintro ⟨p, hp, e⟩
      obtain ⟨y, hy, hyx⟩ := h3 _ (List.mem_map.mpr ⟨p, hp, rfl⟩)
      obtain ⟨p0, hp0, e0⟩ := hU y hy
      rw [← e0] at hyx
      have := heq p0 hp0 p hp hyx
      rw [e0, e] at this
      exact ⟨y, hy, by rw [this]⟩
  · apply List.Nodup.map_on
    · intro x _ y _ hxy
      cases x; cases y
      simp only [Prod.mk.injEq] at hxy
      simp [hxy.1, hxy.2]
    · refine List.Pairwise.imp ?_ h4
      intro a b hab e
      rw [e, hrefl] at hab
      exact absurd hab (by simp)

/-- C16. When the agents that occur in connected pairs have distinct ids (and with
`unique_vector` keeping the first of equal elements), `getConnectedCellsList` returns
every connected pair, in one of its two orders, and only connected pairs; each pair it
returns has the agent of smaller id first; no pair is returned twice, neither as such nor
as an unordered pair; and `getNbOfCellCellConnections` is the number of unordered
connected pairs. -/
theorem getConnectedCellsList_lists_each_pair_once (w : BasicWorld σ V R γ μ)
    (hinj : ∀ a ∈ connectedAgents w, ∀ b ∈ connectedAgents w,
      (w.heap a).id = (w.heap b).id → a = b) :
    (∀ p ∈ connectedPairs w,
      (p.1, p.2) ∈ getConnectedCellsList w ∨ (p.2, p.1) ∈ getConnectedCellsList w) ∧
    (∀ q ∈ getConnectedCellsList w,
      (q.1, q.2) ∈ connectedPairs w ∨ (q.2, q.1) ∈ connectedPairs w) ∧
    (∀ q ∈ getConnectedCellsList w,
      (w.heap q.1).id ≤ (w.heap q.2).id ∧ (q.1 ≠ q.2 → (w.heap q.1).id < (w.heap q.2).id)) ∧
    (getConnectedCellsList w).Nodup ∧
    ((getConnectedCellsList w).map Sym2.mk).Nodup ∧
    getNbOfCellCellConnections w = ((connectedPairs w).map Sym2.mk).toFinset.card := by
  have hspec := fun q => (uniquePairs_spec w hinj q).1
  have hnodup := (uniquePairs_spec w hinj (0, 0)).2
  have h1 : ∀ p ∈ connectedPairs w,
      (p.1, p.2) ∈ getConnectedCellsList w ∨ (p.2, p.1) ∈ getConnectedCellsList w := by
    intro p hp
    rcases (make_ordered_cell_pair_cases (fun p => (w.heap p).id) p.1 p.2).1 with e | e
    · exact Or.inl ((hspec (p.1, p.2)).mpr ⟨p, hp, e⟩)
    · exact Or.inr ((hspec (p.2, p.1)).mpr ⟨p, hp, e⟩)
  have h2 : ∀ q ∈ getConnectedCellsList w,
      (q.1, q.2) ∈ connectedPairs w ∨ (q.2, q.1) ∈ connectedPairs w := by
    intro q hq
    obtain ⟨p, hp, e⟩ := (hspec q).mp hq
    rcases (make_ordered_cell_pair_cases (fun p => (w.heap p).id) p.1 p.2).1 with e1 | e1
    · rw [e1] at e
      simp only [ordered_pair.mk.injEq] at e
      left; rw [← e.1, ← e.2]; exact hp
    · rw [e1] at e
      simp only [ordered_pair.mk.injEq] at e
      right; rw [← e.1, ← e.2]; exact hp
  have h3 : ∀ q ∈ getConnectedCellsList w,
      (w.heap q.1).id ≤ (w.heap q.2).id ∧
        (q.1 ≠ q.2 → (w.heap q.1).id < (w.heap q.2).id) := by
    intro q hq
    obtain ⟨p, hp, e⟩ := (hspec q).mp hq
    have hle := (make_ordered_cell_pair_cases (fun p => (w.heap p).id) p.1 p.2).2
    rw [e] at hle
    simp only at hle
    refine ⟨hle, ?_⟩
    intro hne
    have hag : q.1 ∈ connectedAgents w ∧ q.2 ∈ connectedAgents w := by
      rcases h2 q hq with h | h
      · exact mem_connectedAgents w _ h
      · exact (mem_connectedAgents w _ h).symm
    rcases Nat.lt_or_ge (w.heap q.1).id (w.heap q.2).id with hlt | hge
    · exact hlt
    · exact absurd (hinj _ hag.1 _ hag.2 (le_antisymm hle hge)) hne
  have h5 : ((getConnectedCellsList w).map Sym2.mk).Nodup := by
    apply List.Nodup.map_on _ hnodup
    intro q hq r hr e
    rcases Sym2.mk_eq_mk_iff.mp e with e1 | e1
    · exact e1
    · have hq3 := (h3 q hq).1
      have hr3 := (h3 r hr).1
      have hq1 : q.1 = r.2 := by rw [e1]; rfl
      have hq2 : q.2 = r.1 := by rw [e1]; rfl
      rw [hq1, hq2] at hq3
      have hrag : r.1 ∈ connectedAgents w ∧ r.2 ∈ connectedAgents w := by
        rcases h2 r hr with h | h
        · exact mem_connectedAgents w _ h
        · exact (mem_connectedAgents w _ h).symm
      have := hinj _ hrag.1 _ hrag.2 (le_antisymm hr3 hq3)
      rw [e1]
      obtain ⟨r1, r2⟩ := r
      simp only at this
      subst this
      rfl
  refine ⟨h1, h2, h3, hnodup, h5, ?_⟩
  have hset : ((connectedPairs w).map Sym2.mk).toFinset =
      ((getConnectedCellsList w).map Sym2.mk).toFinset := by
    ext z
    simp only [List.mem_toFinset, List.mem_map]
    constructor
    · rintro ⟨p, hp, rfl⟩
      rcases h1 p hp with h | h
      · exact ⟨_, h, rfl⟩
      · exact ⟨_, h, Sym2.eq_swap⟩
    · rintro ⟨q, hq, rfl⟩
      rcases h2 q hq with h | h
      · exact ⟨_, h, rfl⟩
      · exact ⟨_, h, Sym2.eq_swap⟩
  rw [hset, List.toFinset_card_of_nodup h5, List.length_map]
  rfl

theorem getConnectedCellsList_lists_each_pair_once_witness :
    (∀ a ∈ connectedAgents demoConnected, ∀ b ∈ connectedAgents demoConnected,
      (demoConnected.heap a).id = (demoConnected.heap b).id → a = b) ∧
    connectedPairs demoConnected = [(2, 1), (1, 2), (3, 1)] ∧
    getConnectedCellsList demoConnected = [(1, 2), (1, 3)] ∧
    getNbOfCellCellConnections demoConnected =
      ((connectedPairs demoConnected).map Sym2.mk).toFinset.card :=
  ⟨fun _ _ _ _ h => h, by decide, by decide,
    (getConnectedCellsList_lists_each_pair_once demoConnected (fun _ _ _ _ h => h)).2.2.2.2.2⟩

end BasicWorld

namespace ordered_hash_map

variable {K V : Type}

end ordered_hash_map

end MecaCell
